import Mathlib

/-!
Shallow embedding of the redicluster driver (Go) in Lean 4, together with
proofs checking the natural-language specification against the code.

Sources embedded here:
 - clusterpool.go : slot hashing (`slot`, `CmdSlot`), `GetAddrsBySlots`,
   `onRedir`, `getRedisConnBySlot`, `reloadSlotMaping`, `updateSlotMap`,
   `getNodes`, the sharded pub/sub helpers (`ChnSlot`, `SSubscribe`), and the
   pipeliner (`pipeLiner`, `batch`).
 - redirconn.go : `RedirInfo`, `ParseRedirInfo`.
 - multikeys (`multiget`).

Conventions of the embedding:
 - Go `interface{}` values that flow through the driver are modelled by `RVal`.
 - Go `error` values are modelled by `GoErr`; a `redis.Error` (server error
   string) is `GoErr.redisErr`, any other error is `GoErr.goErr`.
 - A Go function that can panic (index out of range, `rand.Intn(0)`) returns
   `GoOut`, whose `panic` constructor marks the run-time panic.
 - Network I/O (dialing a node, sending frames, receiving frames) is modelled
   by explicit oracle parameters describing what the network would answer;
   the driver code itself is translated statement by statement.
 - Machine integers are modelled by `Nat`/`Int`; `crc16` masks with `% 65536`.
-/

set_option maxHeartbeats 1000000
set_option maxRecDepth 100000
set_option linter.unusedVariables false

namespace Redicluster

/-- Go `interface{}` values handled by the driver: strings (also covering
`[]byte` bulk strings, which redigo converts to/from strings), integers,
nested arrays, and the nil interface. -/
inductive RVal where
  | null
  | str (s : String)
  | int (n : Int)
  | arr (l : List RVal)
  deriving Repr

/-- Go `error` values: a `redis.Error` (an error reply from the server, the
payload is its text) or any other Go error (the payload is its message). -/
inductive GoErr where
  | redisErr (s : String)
  | goErr (s : String)
  deriving Repr, DecidableEq

/-- Outcome of a Go function that can also panic at run time. -/
inductive GoOut (α : Type) where
  | ok (a : α)
  | err (e : GoErr)
  | panic
  deriving Repr, DecidableEq

/-- TotalSlots constant of clusterpool.go. -/
def TotalSlots : Nat := 16384

/-! ## CRC16 and key hashing (spec §4.1) -/

/-- Modelled from the spec: the repository's crc16.go is not among the
provided sources; spec §6 fixes the hash as "CRC16 with the standard cluster
polynomial (CCITT-XMODEM), modulo 16384".  This is the bitwise CCITT-XMODEM
CRC (poly 0x1021 = 4129, initial value 0), one shift-and-reduce round. -/
def crc16Round (crc : Nat) : Nat :=
  if crc % 65536 ≥ 32768 then ((crc <<< 1) ^^^ 4129) % 65536
  else (crc <<< 1) % 65536

/-- Modelled from the spec: fold one input byte into the CRC accumulator
(XOR into the high byte, then eight polynomial rounds). -/
def crc16Byte (crc b : Nat) : Nat :=
  crc16Round^[8] ((crc ^^^ ((b % 256) <<< 8)) % 65536)

/-- Modelled from the spec: CCITT-XMODEM CRC16 of a byte sequence.
Check value: crc16 of "123456789" is 0x31C3. -/
def crc16 (bytes : List Nat) : Nat :=
  bytes.foldl crc16Byte 0

/-- Bytes of a key.  Go strings are byte strings; all keys manipulated in
this development are ASCII, where bytes and characters coincide. -/
def strBytes (s : String) : List Nat :=
  s.toList.map Char.toNat

/-- Hash-tag extraction of clusterpool.go `slot`: if the key contains `{`
followed (non-adjacently) by `}`, hash only the interior.  Mirrors
`strings.Index(key, "{")` and `strings.Index(key[start+1:], "}")` with the
strict `end > 0` test of the source. -/
def extractTag (key : List Char) : List Char :=
  match key.findIdx? (· = '{') with
  | none => key
  | some start =>
    let rest := key.drop (start + 1)
    match rest.findIdx? (· = '}') with
    | none => key
    | some e => if e > 0 then rest.take e else key

/-- Function `slot` of clusterpool.go: hash slot of a key,
`crc16(tag) % TotalSlots`. -/
def slot (key : String) : Nat :=
  crc16 ((extractTag key.toList).map Char.toNat) % TotalSlots

/-- Function `CmdSlot` of clusterpool.go: if there is at least one argument
and the first argument is a string, the slot of that string; otherwise 0.
The variadic `args ...interface{}` parameter is the `List RVal`. -/
def CmdSlot (cmd : String) (args : List RVal) : Int :=
  match args with
  | RVal.str key :: _ => (slot key : Int)
  | _ :: _ => 0
  | [] => 0

/-- Modelled from the spec: the exported key-hash function `Slot` called by
`ChnSlot` and `multiget` is not among the provided sources; per spec §3 and
§4.1 it is the slot-of-key function, identical to `slot` of clusterpool.go. -/
def Slot (key : String) : Int :=
  (slot key : Int)

/-! ## strconv.Atoi and strings.Fields -/

/-- Decimal value of a digit list; `none` if empty or a non-digit occurs.
Mirrors the digit loop of Go `strconv.ParseInt` in base 10. -/
def digitsVal : List Char → Option Nat
  | [] => none
  | l => l.foldl (fun acc c =>
      match acc with
      | none => none
      | some n => if c.isDigit then some (n * 10 + (c.toNat - 48)) else none)
      (some 0)

/-- Go `strconv.Atoi`: optional sign, then one or more decimal digits, and
the value must fit a 64-bit signed integer (`bitSize` 0 on a 64-bit target);
otherwise an error (modelled as `none`).  Note that a leading `-` is
accepted, so negative numbers parse successfully. -/
def goAtoi (s : String) : Option Int :=
  match s.toList with
  | [] => none
  | '+' :: rest =>
    match digitsVal rest with
    | some n => if n ≤ 9223372036854775807 then some (n : Int) else none
    | none => none
  | '-' :: rest =>
    match digitsVal rest with
    | some n => if n ≤ 9223372036854775808 then some (-(n : Int)) else none
    | none => none
  | l =>
    match digitsVal l with
    | some n => if n ≤ 9223372036854775807 then some (n : Int) else none
    | none => none

/-- Whitespace recognised by Go `strings.Fields` (`unicode.IsSpace`),
restricted to the ASCII range used by redirection errors. -/
def isSpaceChar (c : Char) : Bool :=
  c = ' ' ∨ c = '\t' ∨ c = '\n' ∨ c = '\r' ∨ c = '\x0b' ∨ c = '\x0c'

/-- Accumulator recursion behind `goFields`: split around whitespace,
dropping empty fields (the current field is accumulated in reverse). -/
def fieldsAux : List Char → List Char → List String
  | [], cur => if cur.isEmpty then [] else [String.mk cur.reverse]
  | c :: rest, cur =>
    if isSpaceChar c then
      if cur.isEmpty then fieldsAux rest []
      else String.mk cur.reverse :: fieldsAux rest []
    else fieldsAux rest (c :: cur)

/-- Go `strings.Fields`: the maximal non-whitespace substrings, in order. -/
def goFields (s : String) : List String :=
  fieldsAux s.toList []

/-! ## RedirInfo and ParseRedirInfo (redirconn.go) -/

/-- Struct `RedirInfo` of redirconn.go. -/
structure RedirInfo where
  kind : String
  slot : Int
  addr : String
  raw : String
  deriving Repr, DecidableEq

/-- Function `ParseRedirInfo` of redirconn.go: the error must be a
`redis.Error` whose text splits into exactly three fields, the first being
`MOVED` or `ASK`, the second parsing with `strconv.Atoi`. -/
def ParseRedirInfo : GoErr → Option RedirInfo
  | GoErr.goErr _ => none
  | GoErr.redisErr s =>
    match goFields s with
    | [p0, p1, p2] =>
      if p0 = "MOVED" ∨ p0 = "ASK" then
        match goAtoi p1 with
        | some n => some ⟨p0, n, p2, s⟩
        | none => none
      else none
    | _ => none

/-! ## GetAddrsBySlots (clusterpool.go)

The slot table `slotAddrMap [TotalSlots][]string` is modelled as a function
`Nat → List String`; an access `slotAddrMap[sl]` with `sl` of Go type `int`
panics when `sl < 0` (index out of range), which the embedding makes explicit
(there is no lower-bound check in the source).  The guarded global random
source `rnd` is modelled by a supply `sup : Nat → Nat` and a counter: the
`k`-th call of `rnd.Intn n` returns `sup k % n`, and panics when `n ≤ 0`,
exactly as `rand.Intn`. -/

/-- Loop body of `ClusterPool.GetAddrsBySlots`: `acc` is the `addrs` slice
built so far.  Note two literal translations from the source: in the
read-only branch with `len(sa) ≠ 2` the code draws `ix := rnd.Intn(len(sa)-1)`
(panicking when the slot has no replica) and then reads `addrs[ix+1]` — the
accumulator slice, not the owner list `sa`. -/
def getAddrsLoop (m : Nat → List String) (readOnly : Bool) (sup : Nat → Nat) :
    List Int → Nat → List String → GoOut (List String)
  | [], _, acc => .ok acc
  | sl :: rest, k, acc =>
    if sl ≥ (TotalSlots : Int) then .err (.goErr "invalid slot")
    else if sl < 0 then .panic
    else
      let sa := m sl.toNat
      if sa.length = 0 then .err (.goErr "bad slot mapping")
      else if readOnly then
        if sa.length = 2 then
          getAddrsLoop m readOnly sup rest k (acc ++ [sa.getD 1 ""])
        else if sa.length - 1 = 0 then .panic
        else
          let ix := sup k % (sa.length - 1)
          match acc[ix + 1]? with
          | none => .panic
          | some a => getAddrsLoop m readOnly sup rest (k + 1) (acc ++ [a])
      else getAddrsLoop m readOnly sup rest k (acc ++ [sa.headD ""])

/-- Method `ClusterPool.GetAddrsBySlots` of clusterpool.go. -/
def GetAddrsBySlots (m : Nat → List String) (slots : List Int) (readOnly : Bool)
    (sup : Nat → Nat) : GoOut (List String) :=
  getAddrsLoop m readOnly sup slots 0 []

/-! ## onRedir (clusterpool.go) -/

/-- Method `ClusterPool.onRedir`: mutate the slot table only for a `MOVED`
redirection whose address differs from the slot's current primary; the
returned Bool is `doReload`, and the source spawns `go cp.reloadSlotMaping()`
(a background reload) exactly when it is true.  The table access
`slotAddrMap[ri.Slot]` panics for a negative slot (modelled by `none`). -/
def onRedir (m : Nat → List String) : Option RedirInfo →
    Option ((Nat → List String) × Bool)
  | none => some (m, false)
  | some ri =>
    if ri.kind = "MOVED" then
      if ri.slot < (TotalSlots : Int) then
        if ri.slot < 0 then none
        else
          let curAddr := m ri.slot.toNat
          match curAddr with
          | [] => some (fun j => if j = ri.slot.toNat then [ri.addr] else m j, true)
          | a0 :: _ =>
            if a0 ≠ ri.addr then
              some (fun j => if j = ri.slot.toNat then [ri.addr] else m j, true)
            else some (m, false)
      else some (m, false)
    else some (m, false)

/-! ## getRedisConnBySlot and sharded pub/sub (clusterpool.go)

Dialing the chosen address is I/O and is abstracted away: the embedding
returns the address the connection would be dialed to.  The slot table after
the inline `reloadSlotMaping()` call is supplied as a parameter `m2`. -/

/-- Method `ClusterPool.getRedisConnBySlot`, up to the address choice: the
only slot guard is `slot >= TotalSlots`; a negative slot panics on the array
access.  When the slot has no owner, the table is reloaded (yielding `m2`)
and consulted again. -/
def getRedisConnBySlot (m m2 : Nat → List String) (sl : Int) : GoOut String :=
  if sl ≥ (TotalSlots : Int) then .err (.goErr "invalid slot")
  else if sl < 0 then .panic
  else
    match m sl.toNat with
    | a :: _ => .ok a
    | [] =>
      match m2 sl.toNat with
      | [] => .err (.goErr "no slots")
      | a :: _ => .ok a

/-- Conversion `redis.String(cc, nil)` used by `ChnSlot` on each channel
argument: strings (and `[]byte`, which `RVal.str` also covers) convert,
anything else is an error. -/
def redisString : RVal → Option String
  | RVal.str s => some s
  | _ => none

/-- Loop of `ChnSlot`: `acc` is the running `slot` variable (started at −1);
empty channel names are skipped, and two non-empty names hashing to
different slots are an error. -/
def chnSlotLoop : List RVal → Int → GoOut Int
  | [], acc => .ok acc
  | cc :: rest, acc =>
    match redisString cc with
    | none => .err (.goErr "not a string")
    | some chn =>
      if chn.length > 0 then
        let sl := Slot chn
        if acc < 0 then chnSlotLoop rest sl
        else if sl ≠ acc then .err (.goErr "channels must be in the same slot")
        else chnSlotLoop rest acc
      else chnSlotLoop rest acc

/-- Function `ChnSlot` of clusterpool.go: common slot of the channels, −1
when no channel is a non-empty string. -/
def ChnSlot (channels : List RVal) : GoOut Int :=
  chnSlotLoop channels (-1)

/-- Method `ShardedPubSubConn.SSubscribe`, up to the connection choice: the
slot returned by `ChnSlot` (possibly −1) is passed straight to
`getRedisConnBySlot`. -/
def sSubscribeAddr (m m2 : Nat → List String) (channels : List RVal) : GoOut String :=
  match ChnSlot channels with
  | .err e => .err e
  | .panic => .panic
  | .ok sl => getRedisConnBySlot m m2 sl

/-! ## Slot-map reloading (clusterpool.go) -/

/-- Struct `nodeInfo` of clusterpool.go. -/
structure NodeInfo where
  addr : String
  id : String
  deriving Repr, DecidableEq

/-- Struct `slotInfo` of clusterpool.go (`End` is a Lean keyword, hence
`startSlot`/`endSlot` for `Start`/`End`). -/
structure SlotInfo where
  startSlot : Int
  endSlot : Int
  nodes : List NodeInfo
  addrs : List String
  deriving Repr, DecidableEq

/-- State of a `ClusterPool` relevant to slot-map reloading. -/
structure PoolState where
  entryAddrs : List String
  slotAddrMap : Nat → List String
  slots : List SlotInfo
  reloading : Bool

/-- Method `ClusterPool.getNodes`: all known node addresses (only the
primary of each range when `replica` is false), falling back to the
configured entry addresses when none are known. -/
def getNodes (st : PoolState) (replica : Bool) : List String :=
  let nodes := st.slots.flatMap fun sl =>
    if replica then sl.nodes.map (·.addr) else (sl.nodes.take 1).map (·.addr)
  if nodes = [] then st.entryAddrs else nodes

/-- Scan of one node entry `[host, port, id, …]` of a CLUSTER SLOTS reply:
`redis.Values` requires an array, `redis.Scan(fs, &a, &p, &id)` requires at
least three elements (string, integer, string) and ignores the rest; the
address is `fmt.Sprintf("%s:%d", a, p)`. -/
def parseNode : RVal → Option NodeInfo
  | RVal.arr (h :: p :: i :: _) =>
    match h, p, i with
    | RVal.str a, RVal.int pt, RVal.str id => some ⟨a ++ ":" ++ toString pt, id⟩
    | _, _, _ => none
  | _ => none

/-- Scan of one slot entry `[start, end, node, …]`: at least two integers,
then every remaining element parsed as a node entry (`Nodes` and `Addrs`
are built side by side in the source). -/
def parseSlotEntry : RVal → Option SlotInfo
  | RVal.arr (s :: e :: nodes) =>
    match s, e with
    | RVal.int st, RVal.int en =>
      match nodes.mapM parseNode with
      | some ns => some ⟨st, en, ns, ns.map (·.addr)⟩
      | none => none
    | _, _ => none
  | _ => none

/-- Parse of the whole CLUSTER SLOTS reply in `updateSlotMap`: an array of
slot entries; any scan failure aborts with an error before any mutation. -/
def parseSlotsReply : RVal → Option (List SlotInfo)
  | RVal.arr entries => entries.mapM parseSlotEntry
  | _ => none

/-- A parsed range whose installation loop `for i := Start; i <= End; i++`
would index `slotAddrMap` out of `[0, TotalSlots)` and panic. -/
def rangeBad (si : SlotInfo) : Bool :=
  si.startSlot ≤ si.endSlot ∧ (si.startSlot < 0 ∨ si.endSlot ≥ (TotalSlots : Int))

/-- Installation loop of `updateSlotMap`: each parsed range overwrites its
slots with the range's address list. -/
def installSlots (m : Nat → List String) (sis : List SlotInfo) : Nat → List String :=
  sis.foldl (fun acc si => fun j =>
    if si.startSlot ≤ (j : Int) ∧ (j : Int) ≤ si.endSlot then si.addrs else acc j) m

/-- Method `ClusterPool.updateSlotMap`: parse the reply, then atomically
replace `slots` and overwrite the covered entries of `slotAddrMap`.  A parse
failure returns the scan error and mutates nothing (the message text of the
underlying redigo error is abstracted). -/
def updateSlotMap (st : PoolState) (rep : RVal) : GoOut PoolState :=
  match parseSlotsReply rep with
  | none => .err (.goErr "scan error")
  | some sis =>
    if sis.any rangeBad then .panic
    else .ok { st with slots := sis, slotAddrMap := installSlots st.slotAddrMap sis }

/-- Candidate loop of `reloadSlotMaping`: `net a` is `none` when dialing the
node or `conn.Do("CLUSTER", "SLOTS")` fails (the source `continue`s on
either), and `some rep` when the node answered `rep`.  The first reply that
`updateSlotMap` accepts is installed; the deferred handler clears the
`reloading` flag on every exit. -/
def reloadLoop (net : String → Option RVal) (st : PoolState) :
    List String → GoOut (PoolState × Option GoErr)
  | [] => .ok ({ st with reloading := false }, some (.goErr "all nodes failed"))
  | a :: rest =>
    match net a with
    | none => reloadLoop net st rest
    | some rep =>
      match updateSlotMap st rep with
      | .err _ => reloadLoop net st rest
      | .panic => .panic
      | .ok st2 => .ok ({ st2 with reloading := false }, none)

/-- Method `ClusterPool.reloadSlotMaping` (source spelling): single-flight on
the `reloading` flag — if set, return success immediately; otherwise set it,
walk `getNodes(true)` (or report "empty node"), and clear it on exit. -/
def reloadSlotMaping (net : String → Option RVal) (st : PoolState) :
    GoOut (PoolState × Option GoErr) :=
  if st.reloading then .ok (st, none)
  else
    let st1 := { st with reloading := true }
    let nodes := getNodes st1 true
    if nodes = [] then .ok ({ st1 with reloading := false }, some (.goErr "empty node"))
    else reloadLoop net st1 nodes

/-! ## Pipeliner (clusterpool.go)

The `cmd` structs live in the ordered slice `p.cmds`; a `batch` holds
pointers into that slice.  The embedding keeps the commands in a
`List PCmd` and lets batches hold indices into it, so that "the i-th sent
command" is the entry at position i throughout.  Connection I/O is an
oracle `ConnBeh` per node address and per run round; `p.cp.onRedir` inside
`batch.run` touches only the pool's slot table (embedded separately above)
and never the pipeliner state, so it is elided here. -/

/-- Struct `cmd` of clusterpool.go (field `slot` is named `cslot` to avoid
shadowing the hash function inside record updates). -/
structure PCmd where
  commandName : String
  args : List RVal
  reply : RVal
  reply_err : Option GoErr
  cslot : Int
  addr : String
  ri : Option RedirInfo
  deriving Repr

/-- A freshly appended command: Go zero values for the remaining fields. -/
def mkCmd (name : String) (args : List RVal) : PCmd :=
  ⟨name, args, .null, none, 0, "", none⟩

/-- State of a `pipeLiner`: the ordered command list, the `flushed` flag,
the receive cursor, and the per-address batches (Go `map[string]*batch`,
kept here as an association list of command indices). -/
structure PipeState where
  cmds : List PCmd
  flushed : Bool
  recvPos : Int
  batches : List (String × List Nat)
  deriving Repr

/-- Constructor `newPipeliner`: empty command list, cursor −1. -/
def newPipeliner : PipeState :=
  ⟨[], false, -1, []⟩

/-- Method `pipeLiner.send`: append the command, never any I/O. -/
def sendCmd (p : PipeState) (name : String) (args : List RVal) : PipeState :=
  { p with cmds := p.cmds ++ [mkCmd name args] }

/-- A whole sequence of Send calls on a fresh pipeliner. -/
def sendAll (sends : List (String × List RVal)) : PipeState :=
  sends.foldl (fun p s => sendCmd p s.1 s.2) newPipeliner

/-- Slot pass of `pipeLiner.buildBatches`.  The source line is
`cmd.slot = CmdSlot(cmd.commandName, cmd.args)`: `cmd.args` (a
`[]interface{}`) is passed to the variadic parameter without `...`, so
`CmdSlot` receives a single argument that is the whole argument slice —
modelled literally as the one-element list `[RVal.arr c.args]`. -/
def computeSlots (cmds : List PCmd) : List PCmd × List Int :=
  let cmds2 := cmds.map fun c => { c with cslot := CmdSlot c.commandName [RVal.arr c.args] }
  (cmds2, cmds2.map (·.cslot))

/-- Address assignment of `buildBatches`: `p.cmds[i].addr = addr` for every
command whose looked-up address is non-empty. -/
def assignAddrs (cmds : List PCmd) (addrs : List String) : List PCmd :=
  List.zipWith (fun c a => if a ≠ "" then { c with addr := a } else c) cmds addrs

/-- Insertion into the batch map: append the index to the batch of this
address, creating the batch when absent (`p.batches[addr]`). -/
def addToBatch : List (String × List Nat) → String → Nat → List (String × List Nat)
  | [], a, i => [(a, [i])]
  | (b, is) :: rest, a, i =>
    if b = a then (b, is ++ [i]) :: rest else (b, is) :: addToBatch rest a i

/-- Grouping loop of `buildBatches` over the command indices, skipping
commands whose address came back empty. -/
def groupBatchesAux : List String → Nat → List (String × List Nat) →
    List (String × List Nat)
  | [], _, bs => bs
  | a :: rest, i, bs =>
    groupBatchesAux rest (i + 1) (if a ≠ "" then addToBatch bs a i else bs)

/-- Batches of `buildBatches`, keyed by address, indices in submission
order. -/
def groupBatches (addrs : List String) : List (String × List Nat) :=
  groupBatchesAux addrs 0 []

/-- Method `pipeLiner.buildBatches`: compute the slots, look all addresses
up in one call (`lookup` is `GetAddrsBySlots` of the owning pool), check the
count, assign addresses and group.  Errors abort the flush. -/
def buildBatches (lookup : List Int → GoOut (List String)) (p : PipeState) :
    GoOut PipeState :=
  let cs := computeSlots p.cmds
  match lookup cs.2 with
  | .panic => .panic
  | .err e => .err e
  | .ok addrs =>
    if addrs.length ≠ cs.1.length then .err (.goErr "addr count didn't match cmd count")
    else .ok { p with cmds := assignAddrs cs.1 addrs, batches := groupBatches addrs }

/-- Behaviour of one borrowed connection: errors of `getRedisConnByAddr`,
of the k-th `conn.Send`, of `conn.Flush`, and the (reply, error) pair of the
k-th `conn.Receive` (FIFO on the connection). -/
structure ConnBeh where
  dialErr : Option GoErr
  sendErr : Nat → Option GoErr
  flushErr : Option GoErr
  recv : Nat → RVal × Option GoErr

/-- First send error among the batch's `n` commands, if any; mirrors the
early return of the send loop in `batch.run`. -/
def firstSendErr (beh : ConnBeh) (n : Nat) : Option GoErr :=
  (List.range n).findSome? beh.sendErr

/-- Update of `cmd.ri` in the receive loop of `batch.run`: the parsed
redirection is stored only when the reply error parses; otherwise the field
keeps its previous value. -/
def riUpd (old : Option RedirInfo) : Option GoErr → Option RedirInfo
  | none => old
  | some e =>
    match ParseRedirInfo e with
    | some ri => some ri
    | none => old

/-- Receive loop of `batch.run`: the k-th command of the batch gets the k-th
reply of the connection; a reply error that parses as a redirection is
recorded in `cmd.ri` (and, for MOVED, `p.cp.onRedir` is notified — an effect
on the pool's slot table only, elided here). -/
def applyRecv (beh : ConnBeh) : List Nat → Nat → List PCmd → List PCmd
  | [], _, cs => cs
  | i :: rest, k, cs =>
    let cs2 :=
      match cs[i]? with
      | none => cs
      | some c =>
        cs.set i { c with reply := (beh.recv k).1, reply_err := (beh.recv k).2,
                          ri := riUpd c.ri (beh.recv k).2 }
    applyRecv beh rest (k + 1) cs2

/-- Method `batch.run`: dial the batch address, send every command in
submission order, flush, then receive one reply per command.  Any failure
before the receive loop returns the error with every command untouched. -/
def batchRun (beh : ConnBeh) (idxs : List Nat) (cs : List PCmd) :
    List PCmd × Option GoErr :=
  match beh.dialErr with
  | some e => (cs, some e)
  | none =>
    match firstSendErr beh idxs.length with
    | some e => (cs, some e)
    | none =>
      match beh.flushErr with
      | some e => (cs, some e)
      | none => (applyRecv beh idxs 0 cs, none)

/-- Method `pipeLiner.runBatches`: run every non-empty batch ("in
goroutines"); the batches write into disjoint commands, so the concurrent
fan-out is modelled by a sequential fold.  The per-batch error is discarded
by the source (`if err != nil { return }` inside the goroutine). -/
def runBatchList (beh : String → ConnBeh) : List (String × List Nat) →
    List PCmd → List PCmd
  | [], cs => cs
  | (a, idxs) :: rest, cs =>
    runBatchList beh rest (if idxs.length > 0 then (batchRun (beh a) idxs cs).1 else cs)

/-- State-level wrapper of `runBatches`. -/
def runBatches (beh : String → ConnBeh) (p : PipeState) : PipeState :=
  { p with cmds := runBatchList beh p.batches p.cmds }

/-- Walk of `buildRedirectBatches` over the ordered command list,
collecting every command that carries a `RedirInfo` into the batch keyed by
the redirection address (`cp.onRedir` is also notified once — slot-table
effect, elided). -/
def redirCollect : List PCmd → Nat → List (String × List Nat) × Nat →
    List (String × List Nat) × Nat
  | [], _, acc => acc
  | c :: rest, i, (bs, cnt) =>
    match c.ri with
    | some ri => redirCollect rest (i + 1) (addToBatch bs ri.addr i, cnt + 1)
    | none => redirCollect rest (i + 1) (bs, cnt)

/-- Method `pipeLiner.buildRedirectBatches`: clear every batch's command
list (keeping the map keys), then collect the redirected commands; returns
the redirect count. -/
def buildRedirectBatches (p : PipeState) : PipeState × Nat :=
  let cleared := p.batches.map fun ab => (ab.1, ([] : List Nat))
  let r := redirCollect p.cmds 0 (cleared, 0)
  ({ p with batches := r.1 }, r.2)

/-- Method `pipeLiner.doRedirect`: one redirect round when at least one
command was redirected. -/
def doRedirect (beh : String → ConnBeh) (p : PipeState) : PipeState :=
  let r := buildRedirectBatches p
  if r.2 > 0 then runBatches beh r.1 else r.1

/-- Method `pipeLiner.flush`: no-op when already flushed or nothing was
sent; otherwise build the batches, run them, run one redirect round, and
mark the pipeliner flushed.  `beh r a` is the behaviour of the connection
to address `a` during round `r` (0 = initial fan-out, 1 = redirect round). -/
def flushPipe (lookup : List Int → GoOut (List String)) (beh : Nat → String → ConnBeh)
    (p : PipeState) : GoOut PipeState :=
  if p.flushed ∨ p.cmds.isEmpty then .ok p
  else
    match buildBatches lookup p with
    | .panic => .panic
    | .err e => .err e
    | .ok p1 =>
      let p2 := runBatches (beh 0) p1
      let p3 := doRedirect (beh 1) p2
      .ok { p3 with flushed := true }

/-- Method `pipeLiner.reset`: clear the commands and batches (closing the
batch connections), clear the cursor and the flag. -/
def resetPipe (p : PipeState) : PipeState :=
  { p with cmds := [], flushed := false, recvPos := -1, batches := [] }

/-- Method `pipeLiner.receive`: replies were already buffered by flush; the
cursor `recvPos` walks the ordered command list, and consuming the last
reply resets the pipeliner.  The returned pair is (reply, error), usage
errors riding the error slot exactly as in the source. -/
def receivePipe (p : PipeState) : PipeState × (RVal × Option GoErr) :=
  if ¬p.flushed then (p, (.null, some (.goErr "need to flush before receive")))
  else if p.cmds.length = 0 then (p, (.null, none))
  else if p.recvPos ≥ (p.cmds.length : Int) then (p, (.null, some (.goErr "no more reply")))
  else
    let pos : Nat := (p.recvPos + 1).toNat
    match p.cmds[pos]? with
    | none => (p, (.null, none))
    | some c =>
      let p2 := if (pos : Int) = (p.cmds.length : Int) - 1
                then resetPipe { p with recvPos := (pos : Int) }
                else { p with recvPos := (pos : Int) }
      (p2, (c.reply, c.reply_err))

/-- The results of `n` successive Receive calls. -/
def receiveN : PipeState → Nat → List (RVal × Option GoErr)
  | _, 0 => []
  | p, n + 1 =>
    let r := receivePipe p
    r.2 :: receiveN r.1 n

/-! ## multiget (multikeys source file)

The `multiget` rewrite sends one MGET per slot through an internal
pipeliner and recomposes the replies.  The pipeliner leg is abstracted by
the oracle `slotReply sl` = (reply, error) that the pipeliner's Receive
returns for the MGET of slot `sl`: the send loop sends exactly one MGET per
distinct slot, records the slots in `orderSlots` (the Go map iteration
order), and the receive loop walks `orderSlots` again, so the j-th Receive
is the reply of the j-th sent MGET whatever that order was — the pairing of
a slot with its own reply is order-independent, which lets the embedding
keep the map in insertion order. -/

/-- Conversion `fmt.Sprintf("%s", arg)` applied to each key argument.
All keys fed to `multiget` in this development are strings; the non-string
formattings mirror Go's `%s` verb on the sum's other constructors. -/
def sprintfS : RVal → String
  | RVal.str s => s
  | RVal.int n => "%!s(int=" ++ toString n ++ ")"
  | RVal.null => "<nil>"
  | RVal.arr _ => "%!s(slice)"

/-- Insertion into `cmdMap`: append the key to its slot's list, creating the
entry when absent. -/
def insertKey : List (Int × List String) → Int → String → List (Int × List String)
  | [], sl, k => [(sl, [k])]
  | (s, ks) :: rest, sl, k =>
    if s = sl then (s, ks ++ [k]) :: rest else (s, ks) :: insertKey rest sl k

/-- Grouping loop of `multiget`: every key is placed in the list of its
slot `Slot(key)`. -/
def cmdMapAux : List String → List (Int × List String) → List (Int × List String)
  | [], m => m
  | k :: rest, m => cmdMapAux rest (insertKey m (Slot k) k)

/-- Per-slot key groups of `multiget`, in first-appearance order. -/
def cmdMapOf (keys : List String) : List (Int × List String) :=
  cmdMapAux keys []

/-- Write into the Go map `resMap` (overwriting an existing key). -/
def mapPut : List (String × RVal) → String → RVal → List (String × RVal)
  | [], k, v => [(k, v)]
  | (k2, v2) :: rest, k, v =>
    if k2 = k then (k2, v) :: rest else (k2, v2) :: mapPut rest k v

/-- Read from the Go map `resMap`; a missing key reads as the nil
interface. -/
def mapGet (m : List (String × RVal)) (k : String) : RVal :=
  match m.find? (fun kv => kv.1 = k) with
  | some kv => kv.2
  | none => .null

/-- Receive loop of `multiget`: for each slot group, receive its reply; a
receive error aborts; a reply that is an array of exactly the group's size
is valid and distributes element i to key i of the group, anything else
stores nil for every key of the group. -/
def mgetLoop (slotReply : Int → RVal × Option GoErr) :
    List (Int × List String) → List (String × RVal) →
    Except GoErr (List (String × RVal))
  | [], resMap => .ok resMap
  | (sl, ks) :: rest, resMap =>
    let r := slotReply sl
    match r.2 with
    | some e => .error e
    | none =>
      let entries :=
        match r.1 with
        | RVal.arr l =>
          if l.length = ks.length then ks.zip l else ks.map fun k => (k, RVal.null)
        | _ => ks.map fun k => (k, RVal.null)
      mgetLoop slotReply rest (entries.foldl (fun m kv => mapPut m kv.1 kv.2) resMap)

/-- Function `multiget` of the multikeys source file: group the keys by
slot, send one MGET per slot, flush (`flushErr` is the pipeliner flush
result), receive per-slot replies and reorder into the original key
positions via `resMap`. -/
def multiget (slotReply : Int → RVal × Option GoErr) (flushErr : Option GoErr)
    (args : List RVal) : RVal × Option GoErr :=
  if args.length = 0 then (.null, none)
  else
    let keys := args.map sprintfS
    let cmdMap := cmdMapOf keys
    match flushErr with
    | some e => (.null, some e)
    | none =>
      match mgetLoop slotReply cmdMap [] with
      | .error e => (.null, some e)
      | .ok resMap => (.arr (keys.map (mapGet resMap)), none)

/-! ## Concrete inputs used by witnesses -/

/-- Connection behaviour where every dial, send and flush succeeds and the
k-th reply on a connection is the integer k+1. -/
def behC1W : ConnBeh :=
  ⟨none, fun _ => none, none, fun k => (.int ((k : Int) + 1), none)⟩

/-- Pipeliner state after the witness flush of C1 (two commands, both
grouped to node "n1", replies 1 and 2). -/
def pfC1W : PipeState :=
  ⟨[⟨"SET", [.str "k", .str "v"], .int 1, none, 0, "n1", none⟩,
    ⟨"GET", [.str "k"], .int 2, none, 0, "n1", none⟩],
   true, -1, [("n1", [])]⟩

/-- A connection whose dial, first send, or flush fails: any non-empty
batch run over it returns early with an error, before assigning any
per-command reply. -/
def connBroken (b : ConnBeh) : Prop :=
  b.dialErr ≠ none ∨ b.sendErr 0 ≠ none ∨ b.flushErr ≠ none

/-- C3 counterexample inputs: one command, its batch's dial fails. -/
def behC3W : ConnBeh :=
  ⟨some (.goErr "connect refused"), fun _ => none, none, fun _ => (.null, none)⟩

/-- Pipeliner state after the C3 counterexample flush: the command keeps a
nil reply and a nil error. -/
def pfC3W : PipeState :=
  ⟨[⟨"GET", [.str "a"], .null, none, 0, "n1", none⟩], true, -1, [("n1", [])]⟩

/-- A failing reload candidate: dialing it or its `CLUSTER SLOTS` round
fails (`net` answers `none`), or whatever it answers is rejected by
`updateSlotMap` (a scan error).  The loop `continue`s past it either way. -/
def candFails (net : String → Option RVal) (st : PoolState) (a : String) : Prop :=
  ∀ rep, net a = some rep → ∃ e, updateSlotMap st rep = .err e

/-- Element that `multiget` assigns to the key at position `t` of slot
`sl`'s group `ks`: the t-th element of the slot's reply array when the
reply is an array of exactly the group's size, nil otherwise. -/
def groupVal (slotReply : Int → RVal × Option GoErr) (sl : Int) (ks : List String)
    (t : Nat) : RVal :=
  match (slotReply sl).1 with
  | RVal.arr l => if l.length = ks.length then l[t]?.getD .null else .null
  | _ => .null

/-- Invariant of the grouping loop of `multiget`: after processing the keys
`done`, the map has pairwise-distinct slots, each entry holds exactly the
processed keys of its slot in submission order, and every processed key has
an entry. -/
def goodMap (done : List String) (m : List (Int × List String)) : Prop :=
  (m.map Prod.fst).Nodup ∧
  (∀ p ∈ m, p.2 = done.filter (fun k => Slot k = p.1) ∧ p.2 ≠ []) ∧
  (∀ k ∈ done, ∃ p ∈ m, p.1 = Slot k)

/-! ## Helper lemmas about the pipeliner -/

/-- Submission-relevant shape of a command: its name and arguments.  The
batch runs update only the reply július fields, never the shape. -/
def pshape (c : PCmd) : String × List RVal :=
  (c.commandName, c.args)

theorem set_self_of_getElem? {α : Type} :
    ∀ (l : List α) (i : Nat) (a : α), l[i]? = some a → l.set i a = l
  | [], i, a, h => by simp at h
  | x :: xs, 0, a, h => by
    simp only [List.getElem?_cons_zero, Option.some.injEq] at h
    simp [h]
  | x :: xs, i + 1, a, h => by
    simp only [List.getElem?_cons_succ] at h
    simp [set_self_of_getElem? xs i a h]

theorem applyRecv_pshape (beh : ConnBeh) :
    ∀ (idxs : List Nat) (k : Nat) (cs : List PCmd),
    (applyRecv beh idxs k cs).map pshape = cs.map pshape
  | [], _, _ => rfl
  | i :: rest, k, cs => by
    unfold applyRecv
    cases h : cs[i]? with
    | none => exact applyRecv_pshape beh rest (k + 1) cs
    | some c =>
      rw [applyRecv_pshape beh rest (k + 1) _, List.map_set]
      apply set_self_of_getElem?
      rw [List.getElem?_map, h]
      rfl

theorem batchRun_pshape (beh : ConnBeh) (idxs : List Nat) (cs : List PCmd) :
    ((batchRun beh idxs cs).1).map pshape = cs.map pshape := by
  unfold batchRun
  cases beh.dialErr with
  | some e => rfl
  | none =>
    cases firstSendErr beh idxs.length with
    | some e => rfl
    | none =>
      cases beh.flushErr with
      | some e => rfl
      | none => exact applyRecv_pshape beh idxs 0 cs

theorem runBatchList_pshape (beh : String → ConnBeh) :
    ∀ (bs : List (String × List Nat)) (cs : List PCmd),
    (runBatchList beh bs cs).map pshape = cs.map pshape
  | [], _ => rfl
  | (a, idxs) :: rest, cs => by
    unfold runBatchList
    rw [runBatchList_pshape beh rest _]
    by_cases h : idxs.length > 0 <;> simp [h, batchRun_pshape]

theorem runBatches_pshape (beh : String → ConnBeh) (p : PipeState) :
    (runBatches beh p).cmds.map pshape = p.cmds.map pshape :=
  runBatchList_pshape beh p.batches p.cmds

theorem runBatches_flushed (beh : String → ConnBeh) (p : PipeState) :
    (runBatches beh p).flushed = p.flushed := rfl

theorem runBatches_recvPos (beh : String → ConnBeh) (p : PipeState) :
    (runBatches beh p).recvPos = p.recvPos := rfl

theorem doRedirect_pshape (beh : String → ConnBeh) (p : PipeState) :
    (doRedirect beh p).cmds.map pshape = p.cmds.map pshape := by
  unfold doRedirect
  dsimp only
  split
  · exact runBatchList_pshape beh _ p.cmds
  · rfl

theorem doRedirect_flushed (beh : String → ConnBeh) (p : PipeState) :
    (doRedirect beh p).flushed = p.flushed := by
  unfold doRedirect
  dsimp only
  split <;> rfl

theorem doRedirect_recvPos (beh : String → ConnBeh) (p : PipeState) :
    (doRedirect beh p).recvPos = p.recvPos := by
  unfold doRedirect
  dsimp only
  split <;> rfl

theorem computeSlots_pshape (cmds : List PCmd) :
    ((computeSlots cmds).1).map pshape = cmds.map pshape := by
  unfold computeSlots
  rw [List.map_map]
  rfl

theorem assignAddrs_pshape :
    ∀ (cs : List PCmd) (addrs : List String),
    (assignAddrs cs addrs).map pshape = (cs.take addrs.length).map pshape
  | [], addrs => by simp [assignAddrs]
  | c :: cs, [] => by simp [assignAddrs]
  | c :: cs, a :: addrs => by
    unfold assignAddrs
    rw [List.zipWith_cons_cons, List.map_cons]
    have ih := assignAddrs_pshape cs addrs
    unfold assignAddrs at ih
    rw [ih]
    by_cases h : a ≠ "" <;> simp [h, pshape, List.take_cons, List.map_cons]

theorem sendAll_foldl (sends : List (String × List RVal)) :
    ∀ (p : PipeState),
    sends.foldl (fun p s => sendCmd p s.1 s.2) p =
      { p with cmds := p.cmds ++ sends.map fun s => mkCmd s.1 s.2 } := by
  induction sends with
  | nil => intro p; simp
  | cons s rest ih =>
    intro p
    rw [List.foldl_cons, ih]
    simp [sendCmd]

theorem sendAll_eq (sends : List (String × List RVal)) :
    sendAll sends = ⟨sends.map fun s => mkCmd s.1 s.2, false, -1, []⟩ := by
  unfold sendAll newPipeliner
  rw [sendAll_foldl]
  simp

/-- Walking the receive cursor from position `k − 1` through the remaining
`n` buffered replies returns them in order. -/
theorem receiveN_drop :
    ∀ (n : Nat) (cs : List PCmd) (k : Nat) (bs : List (String × List Nat)),
    cs.length = k + n →
    receiveN ⟨cs, true, (k : Int) - 1, bs⟩ n =
      (cs.drop k).map fun c => (c.reply, c.reply_err) := by
  intro n
  induction n with
  | zero =>
    intro cs k bs hlen
    rw [List.drop_eq_nil_of_le (by omega)]
    rfl
  | succ n ih =>
    intro cs k bs hlen
    have hk : k < cs.length := by omega
    unfold receiveN receivePipe
    simp only [Bool.not_true, if_false]
    have h0 : ¬cs.length = 0 := by omega
    have h1 : ¬((k : Int) - 1 ≥ (cs.length : Int)) := by omega
    have hpos : ((k : Int) - 1 + 1).toNat = k := by omega
    simp only [h0, h1, if_false, ite_false, hpos]
    rw [List.getElem?_eq_getElem hk]
    simp only []
    by_cases hlast : (k : Int) = (cs.length : Int) - 1
    · have hn0 : n = 0 := by omega
      have hk1 : k + 1 = cs.length := by omega
      subst hn0
      rw [List.drop_eq_getElem_cons hk, List.drop_eq_nil_of_le (by omega)]
      simp [hlast, receiveN]
    · have hk1 : (k : Int) = ((k + 1 : Nat) : Int) - 1 := by omega
      rw [if_neg hlast]
      rw [List.drop_eq_getElem_cons hk, List.map_cons]
      congr 1
      calc receiveN ⟨cs, true, (k : Int), bs⟩ n
          = receiveN ⟨cs, true, ((k + 1 : Nat) : Int) - 1, bs⟩ n := by rw [← hk1]
        _ = (cs.drop (k + 1)).map fun c => (c.reply, c.reply_err) :=
            ih cs (k + 1) bs (by omega)

/-- The replies of a freshly flushed pipeliner are consumed in the order of
the command list. -/
theorem receiveN_all (p : PipeState) (hf : p.flushed = true) (hp : p.recvPos = -1) :
    receiveN p p.cmds.length = p.cmds.map fun c => (c.reply, c.reply_err) := by
  obtain ⟨cs, fl, rp, bs⟩ := p
  simp only at hf hp
  subst hf hp
  have h := receiveN_drop cs.length cs 0 bs (by omega)
  simpa using h

/-! ## Claim C1 -/

/-- C1: for every sequence of Pipeliner send calls followed by a successful
flush, the i-th receive call returns exactly the reply/error recorded for
the i-th sent Command (original submission order), for every i up to the
number of sends, regardless of how the commands were grouped into per-node
batches: the address lookup (hence the grouping) and the per-connection
behaviours are universally quantified, and the receive sequence equals the
recorded (reply, error) pairs of the commands in submission order, the
commands still carrying the submitted names and arguments. -/
theorem claim_C1_receive_order (sends : List (String × List RVal))
    (lookup : List Int → GoOut (List String)) (beh : Nat → String → ConnBeh)
    (pf : PipeState) (hf : flushPipe lookup beh (sendAll sends) = .ok pf) :
    receiveN pf sends.length = pf.cmds.map (fun c => (c.reply, c.reply_err)) ∧
    pf.cmds.map pshape = sends := by
  rw [sendAll_eq] at hf
  by_cases hs : sends = []
  · subst hs
    unfold flushPipe at hf
    simp only [List.map_nil, List.isEmpty_nil, or_true, if_true] at hf
    cases hf
    exact ⟨rfl, rfl⟩
  · have hne : (sends.map fun s => mkCmd s.1 s.2).isEmpty = false := by
      simp [List.isEmpty_iff, hs]
    unfold flushPipe at hf
    simp only [hne, Bool.false_eq_true, or_self, if_neg, Bool.false_eq_true] at hf
    rw [if_neg (by simp [hne])] at hf
    unfold buildBatches at hf
    dsimp only at hf
    cases hlk : lookup (computeSlots (List.map (fun s => mkCmd s.1 s.2) sends)).2 with
    | panic => rw [hlk] at hf; dsimp only at hf; cases hf
    | err e => rw [hlk] at hf; dsimp only at hf; cases hf
    | ok addrs =>
      rw [hlk] at hf
      dsimp only at hf
      by_cases hlen : addrs.length ≠ (computeSlots (List.map (fun s => mkCmd s.1 s.2) sends)).1.length
      · rw [if_pos hlen] at hf; dsimp only at hf; cases hf
      · rw [if_neg hlen] at hf
        dsimp only at hf
        injection hf with hpf
        subst hpf
        push_neg at hlen
        have hshape : (doRedirect (beh 1)
            (runBatches (beh 0)
              { cmds := assignAddrs (computeSlots (List.map (fun s => mkCmd s.1 s.2) sends)).1 addrs,
                flushed := false, recvPos := -1,
                batches := groupBatches addrs })).cmds.map pshape = sends := by
          rw [doRedirect_pshape, runBatches_pshape]
          dsimp only
          rw [assignAddrs_pshape, hlen, List.take_length, computeSlots_pshape, List.map_map]
          have hcomp : pshape ∘ (fun s : String × List RVal => mkCmd s.1 s.2) = id :=
            funext fun s => rfl
          rw [hcomp, List.map_id]
        constructor
        · have hlen3 : sends.length =
              ((doRedirect (beh 1)
                (runBatches (beh 0)
                  { cmds := assignAddrs (computeSlots (List.map (fun s => mkCmd s.1 s.2) sends)).1 addrs,
                    flushed := false, recvPos := -1,
                    batches := groupBatches addrs })).cmds).length := by
            have := congrArg List.length hshape
            simpa using this.symm
          have hrp : (doRedirect (beh 1)
              (runBatches (beh 0)
                { cmds := assignAddrs (computeSlots (List.map (fun s => mkCmd s.1 s.2) sends)).1 addrs,
                  flushed := false, recvPos := -1,
                  batches := groupBatches addrs })).recvPos = -1 := by
            rw [doRedirect_recvPos, runBatches_recvPos]
          have := receiveN_all
            { (doRedirect (beh 1)
                (runBatches (beh 0)
                  { cmds := assignAddrs (computeSlots (List.map (fun s => mkCmd s.1 s.2) sends)).1 addrs,
                    flushed := false, recvPos := -1,
                    batches := groupBatches addrs })) with flushed := true }
            rfl hrp
          rw [show sends.length = _ from hlen3]
          exact this
        · exact hshape

/-- Witness for C1 at a concrete two-command pipeline. -/
theorem claim_C1_receive_order_witness :
    flushPipe (fun _ => .ok ["n1", "n1"]) (fun _ _ => behC1W)
        (sendAll [("SET", [.str "k", .str "v"]), ("GET", [.str "k"])]) = .ok pfC1W ∧
      receiveN pfC1W 2 = pfC1W.cmds.map (fun c => (c.reply, c.reply_err)) ∧
      pfC1W.cmds.map pshape = [("SET", [.str "k", .str "v"]), ("GET", [.str "k"])] := by
  have h : flushPipe (fun _ => .ok ["n1", "n1"]) (fun _ _ => behC1W)
      (sendAll [("SET", [.str "k", .str "v"]), ("GET", [.str "k"])]) = .ok pfC1W := rfl
  exact ⟨h, claim_C1_receive_order _ _ _ _ h⟩

/-! ## Claim C2 -/

/-- C2 (code bug): `buildBatches` runs
`cmd.slot = CmdSlot(cmd.commandName, cmd.args)` — the argument slice is
passed to the variadic parameter without `...`, so `CmdSlot` sees one
argument that is the whole slice, never a string, and every pipelined
command is assigned slot 0.  The claim (and spec §4.6) say the slot is
computed from the command's own key, i.e. `CmdSlot(name, args...)`, which
for `GET a` is 15495 and for `GET foo` is 12182, both different from 0. -/
theorem claim_C2_slot_code_bug :
    (computeSlots [mkCmd "GET" [.str "a"], mkCmd "GET" [.str "foo"]]).2 = [0, 0] ∧
    CmdSlot "GET" [RVal.arr [.str "a"]] = 0 ∧
    CmdSlot "GET" [.str "a"] = 15495 ∧
    CmdSlot "GET" [.str "foo"] = 12182 := by
  refine ⟨rfl, rfl, ?_, ?_⟩ <;> decide

/-! ## Claim C3 -/

theorem batchRun_fst (b : ConnBeh) (idxs : List Nat) (cs : List PCmd) :
    (batchRun b idxs cs).1 = cs ∨ (batchRun b idxs cs).1 = applyRecv b idxs 0 cs := by
  unfold batchRun
  cases b.dialErr with
  | some e => exact Or.inl rfl
  | none =>
    cases firstSendErr b idxs.length with
    | some e => exact Or.inl rfl
    | none =>
      cases b.flushErr with
      | some e => exact Or.inl rfl
      | none => exact Or.inr rfl

theorem batchRun_broken (b : ConnBeh) (idxs : List Nat) (cs : List PCmd)
    (hb : connBroken b) (hne : idxs ≠ []) : (batchRun b idxs cs).1 = cs := by
  unfold batchRun
  cases hd : b.dialErr with
  | some e => rfl
  | none =>
    cases hs0 : b.sendErr 0 with
    | some e =>
      have h1 : firstSendErr b idxs.length = some e := by
        unfold firstSendErr
        have h2 : idxs.length = (idxs.length - 1) + 1 := by
          cases idxs with
          | nil => exact absurd rfl hne
          | cons x xs => simp
        rw [h2, List.range_succ_eq_map, List.findSome?_cons, hs0]
      rw [h1]
    | none =>
      cases hfl : b.flushErr with
      | some e => cases firstSendErr b idxs.length <;> rfl
      | none =>
        rcases hb with h | h | h
        · exact absurd hd h
        · exact absurd hs0 h
        · exact absurd hfl h

theorem applyRecv_getElem_notMem (beh : ConnBeh) :
    ∀ (idxs : List Nat) (k : Nat) (cs : List PCmd) (j : Nat), j ∉ idxs →
    (applyRecv beh idxs k cs)[j]? = cs[j]?
  | [], _, _, _, _ => rfl
  | i :: rest, k, cs, j, hj => by
    unfold applyRecv
    have hji : j ≠ i := fun h => hj (h ▸ List.mem_cons_self i rest)
    have hrest : j ∉ rest := fun h => hj (List.mem_cons_of_mem i h)
    cases h : cs[i]? with
    | none => exact applyRecv_getElem_notMem beh rest (k + 1) cs j hrest
    | some c =>
      rw [applyRecv_getElem_notMem beh rest (k + 1) _ j hrest]
      exact List.getElem?_set_ne hji.symm

theorem runBatchList_frame (beh : String → ConnBeh) :
    ∀ (bs : List (String × List Nat)) (cs : List PCmd) (j : Nat),
    (∀ p ∈ bs, j ∈ p.2 → connBroken (beh p.1)) →
    (runBatchList beh bs cs)[j]? = cs[j]?
  | [], _, _, _ => rfl
  | (a, idxs) :: rest, cs, j, h => by
    unfold runBatchList
    have hrest : ∀ p ∈ rest, j ∈ p.2 → connBroken (beh p.1) :=
      fun p hp => h p (List.mem_cons_of_mem _ hp)
    rw [runBatchList_frame beh rest _ j hrest]
    by_cases hlen : idxs.length > 0
    · rw [if_pos hlen]
      by_cases hj : j ∈ idxs
      · have hb := h (a, idxs) (List.mem_cons_self _ _) hj
        rw [batchRun_broken (beh a) idxs cs hb
          (fun h0 => by subst h0; simp at hlen)]
      · rcases batchRun_fst (beh a) idxs cs with h1 | h1
        · rw [h1]
        · rw [h1]
          exact applyRecv_getElem_notMem (beh a) idxs 0 cs j hj
    · rw [if_neg hlen]

theorem addToBatch_mem (R : Nat → String → Prop) :
    ∀ (bs : List (String × List Nat)) (a : String) (i : Nat),
    (∀ p ∈ bs, ∀ j ∈ p.2, R j p.1) → R i a →
    ∀ p ∈ addToBatch bs a i, ∀ j ∈ p.2, R j p.1
  | [], a, i, hbs, hia, p, hp, j, hj => by
    simp only [addToBatch, List.mem_singleton] at hp
    subst hp
    simp only [List.mem_singleton] at hj
    subst hj
    exact hia
  | (b, is) :: rest, a, i, hbs, hia, p, hp, j, hj => by
    unfold addToBatch at hp
    by_cases hba : b = a
    · rw [if_pos hba] at hp
      rcases List.mem_cons.mp hp with h1 | h1
      · subst h1
        rcases List.mem_append.mp hj with h2 | h2
        · exact hbs (b, is) (List.mem_cons_self _ _) j h2
        · simp only [List.mem_singleton] at h2
          subst h2
          exact hba ▸ hia
      · exact hbs p (List.mem_cons_of_mem _ h1) j hj
    · rw [if_neg hba] at hp
      rcases List.mem_cons.mp hp with h1 | h1
      · subst h1
        exact hbs (b, is) (List.mem_cons_self _ _) j hj
      · exact addToBatch_mem R rest a i
          (fun q hq => hbs q (List.mem_cons_of_mem _ hq)) hia p h1 j hj

theorem groupBatchesAux_mem (R : Nat → String → Prop) :
    ∀ (addrs : List String) (i0 : Nat) (bs : List (String × List Nat)),
    (∀ p ∈ bs, ∀ j ∈ p.2, R j p.1) →
    (∀ t a, addrs[t]? = some a → a ≠ "" → R (i0 + t) a) →
    ∀ p ∈ groupBatchesAux addrs i0 bs, ∀ j ∈ p.2, R j p.1
  | [], i0, bs, hbs, haddr => hbs
  | a :: rest, i0, bs, hbs, haddr => by
    unfold groupBatchesAux
    refine groupBatchesAux_mem R rest (i0 + 1) _ ?_ ?_
    · by_cases ha : a ≠ ""
      · rw [if_pos ha]
        refine addToBatch_mem R bs a i0 hbs ?_
        have := haddr 0 a (by simp) ha
        simpa using this
      · rw [if_neg ha]
        exact hbs
    · intro t a2 h2 ha2
      have := haddr (t + 1) a2 (by simpa using h2) ha2
      have harith : i0 + (t + 1) = i0 + 1 + t := by omega
      exact harith ▸ this

theorem mem_groupBatches (addrs : List String) :
    ∀ p ∈ groupBatches addrs, ∀ j ∈ p.2, addrs[j]? = some p.1 ∧ p.1 ≠ "" := by
  refine groupBatchesAux_mem (fun j b => addrs[j]? = some b ∧ b ≠ "") addrs 0 [] ?_ ?_
  · intro p hp
    simp at hp
  · intro t a h ha
    exact ⟨by simpa using h, ha⟩

theorem redirCollect_mem (R : Nat → String → Prop) :
    ∀ (cmds : List PCmd) (i0 : Nat) (acc : List (String × List Nat) × Nat),
    (∀ p ∈ acc.1, ∀ j ∈ p.2, R j p.1) →
    (∀ t c ri, cmds[t]? = some c → c.ri = some ri → R (i0 + t) ri.addr) →
    ∀ p ∈ (redirCollect cmds i0 acc).1, ∀ j ∈ p.2, R j p.1
  | [], i0, acc, hacc, hcmds => hacc
  | c :: rest, i0, (bs, cnt), hacc, hcmds => by
    unfold redirCollect
    have hshift : ∀ t c2 ri, rest[t]? = some c2 → c2.ri = some ri →
        R (i0 + 1 + t) ri.addr := by
      intro t c2 ri h2 hri
      have := hcmds (t + 1) c2 ri (by simpa using h2) hri
      have harith : i0 + (t + 1) = i0 + 1 + t := by omega
      exact harith ▸ this
    cases hri : c.ri with
    | none => exact redirCollect_mem R rest (i0 + 1) (bs, cnt) hacc hshift
    | some ri =>
      refine redirCollect_mem R rest (i0 + 1) _ ?_ hshift
      refine addToBatch_mem R bs ri.addr i0 hacc ?_
      have := hcmds 0 c ri (by simp) hri
      simpa using this

theorem mem_redirectBatches (p : PipeState) :
    ∀ q ∈ (buildRedirectBatches p).1.batches, ∀ j ∈ q.2,
    ∃ c ri, p.cmds[j]? = some c ∧ c.ri = some ri ∧ ri.addr = q.1 := by
  have h := redirCollect_mem
    (fun j b => ∃ c ri, p.cmds[j]? = some c ∧ c.ri = some ri ∧ ri.addr = b)
    p.cmds 0 (p.batches.map fun ab => (ab.1, []), 0) ?_ ?_
  · intro q hq j hj
    exact h q hq j hj
  · intro q hq j hj
    rcases List.mem_map.mp hq with ⟨ab, _, hab⟩
    rw [← hab] at hj
    simp at hj
  · intro t c ri hc hri
    exact ⟨c, ri, by simpa using hc, hri, rfl⟩

theorem doRedirect_cmds_frame (beh : String → ConnBeh) (p : PipeState) (j : Nat)
    (hj : ∀ c, p.cmds[j]? = some c → c.ri = none) :
    (doRedirect beh p).cmds[j]? = p.cmds[j]? := by
  unfold doRedirect
  dsimp only
  split
  · show (runBatchList beh (buildRedirectBatches p).1.batches
        (buildRedirectBatches p).1.cmds)[j]? = _
    have hcmds : (buildRedirectBatches p).1.cmds = p.cmds := rfl
    rw [hcmds]
    refine runBatchList_frame beh _ p.cmds j ?_
    intro q hq hjq
    rcases mem_redirectBatches p q hq j hjq with ⟨c, ri, hc, hri, _⟩
    exact absurd hri (by rw [hj c hc]; exact Option.noConfusion)
  · rfl

/-- Dissection of a successful flush into its pipeline stages (used by the
claims about the post-flush state). -/
theorem flushPipe_ok_structure (sends : List (String × List RVal))
    (lookup : List Int → GoOut (List String)) (beh : Nat → String → ConnBeh)
    (pf : PipeState) (addrs : List String)
    (hf : flushPipe lookup beh (sendAll sends) = .ok pf)
    (hlk : lookup (computeSlots ((sendAll sends).cmds)).2 = .ok addrs)
    (hne : sends ≠ []) :
    addrs.length = sends.length ∧
    pf = { doRedirect (beh 1) (runBatches (beh 0)
      ⟨assignAddrs (computeSlots (sends.map fun s => mkCmd s.1 s.2)).1 addrs, false, -1,
        groupBatches addrs⟩) with flushed := true } := by
  rw [sendAll_eq] at hf hlk
  have hnem : (sends.map fun s => mkCmd s.1 s.2).isEmpty = false := by
    simp [List.isEmpty_iff, hne]
  unfold flushPipe at hf
  rw [if_neg (by simp [hnem])] at hf
  unfold buildBatches at hf
  dsimp only at hf
  rw [show ((⟨sends.map fun s => mkCmd s.1 s.2, false, -1, []⟩ : PipeState)).cmds =
      sends.map fun s => mkCmd s.1 s.2 from rfl] at hlk
  rw [hlk] at hf
  dsimp only at hf
  by_cases hlen : addrs.length ≠ (computeSlots (List.map (fun s => mkCmd s.1 s.2) sends)).1.length
  · rw [if_pos hlen] at hf
    dsimp only at hf
    cases hf
  · rw [if_neg hlen] at hf
    dsimp only at hf
    injection hf with hpf
    push_neg at hlen
    constructor
    · rw [hlen]
      unfold computeSlots
      simp
    · exact hpf.symm

/-- C3 counterexample: the batch's connection dial fails before any
per-command reply, yet the command of that batch ends with a nil reply and
a NIL error — `runBatches` discards the batch error — and the Receive for
it returns (nil, nil), not a non-nil error as the claim states. -/
theorem claim_C3_counterexample :
    flushPipe (fun _ => .ok ["n1"]) (fun _ _ => behC3W)
      (sendAll [("GET", [.str "a"])]) = .ok pfC3W ∧
    (pfC3W.cmds.map fun c => c.reply_err) = [none] ∧
    (receivePipe pfC3W).2 = (.null, none) ∧
    ¬ ∃ e : GoErr, (receivePipe pfC3W).2.2 = some e := by
  refine ⟨by rfl, rfl, rfl, ?_⟩
  rintro ⟨e, he⟩
  exact Option.noConfusion he

/-- C3 amended: if a batch's connection-level dial/send/flush fails before
per-command replies are produced, every Command of that batch keeps a nil
reply and a NIL error (the batch error is discarded by `runBatches`), and
the Receive call for such a Command returns (nil, nil) — the failure is not
surfaced to the caller. -/
theorem claim_C3_amended (sends : List (String × List RVal))
    (lookup : List Int → GoOut (List String)) (beh : Nat → String → ConnBeh)
    (pf : PipeState) (addrs : List String) (i : Nat) (a : String)
    (hf : flushPipe lookup beh (sendAll sends) = .ok pf)
    (hlk : lookup (computeSlots ((sendAll sends).cmds)).2 = .ok addrs)
    (hi : addrs[i]? = some a)
    (hbroken : connBroken (beh 0 a))
    (hne : sends ≠ []) :
    pf.cmds[i]?.map (fun c => (c.reply, c.reply_err)) = some (.null, none) ∧
    (receiveN pf pf.cmds.length)[i]? = some (.null, none) := by
  obtain ⟨hlen, hpf⟩ := flushPipe_ok_structure sends lookup beh pf addrs hf hlk hne
  have hilt : i < addrs.length := by
    rcases List.getElem?_eq_some.mp hi with ⟨h, _⟩
    exact h
  -- the command at position i after buildBatches: null reply, nil error, no ri
  have hcs1len : (computeSlots (sends.map fun s => mkCmd s.1 s.2)).1.length
      = sends.length := by
    unfold computeSlots
    simp
  have hcs1 : ∃ c1, (computeSlots (sends.map fun s => mkCmd s.1 s.2)).1[i]? = some c1 ∧
      c1.reply = .null ∧ c1.reply_err = none ∧ c1.ri = none := by
    have hilt2 : i < sends.length := by omega
    cases hsi : sends[i]? with
    | none => rw [List.getElem?_eq_none_iff] at hsi; omega
    | some s =>
      refine ⟨{ mkCmd s.1 s.2 with cslot := CmdSlot s.1 [RVal.arr s.2] }, ?_, rfl, rfl, rfl⟩
      unfold computeSlots
      dsimp only
      rw [List.getElem?_map, List.getElem?_map, hsi]
      rfl
  rcases hcs1 with ⟨c1, hc1, hr1, he1, hri1⟩
  have hcsA : ∃ cA, (assignAddrs (computeSlots (sends.map fun s => mkCmd s.1 s.2)).1 addrs)[i]?
      = some cA ∧ cA.reply = .null ∧ cA.reply_err = none ∧ cA.ri = none := by
    unfold assignAddrs
    rw [List.getElem?_zipWith, hc1, hi]
    by_cases ha : a ≠ "" <;>
      refine ⟨_, rfl, ?_, ?_, ?_⟩ <;> simp [ha, hr1, he1, hri1]
  rcases hcsA with ⟨cA, hcA, hrA, heA, hriA⟩
  -- frame through the first run
  have hframe1 : (runBatchList (beh 0) (groupBatches addrs)
      (assignAddrs (computeSlots (sends.map fun s => mkCmd s.1 s.2)).1 addrs))[i]?
      = some cA := by
    rw [runBatchList_frame (beh 0) (groupBatches addrs) _ i ?_, hcA]
    intro p hp hip
    rcases mem_groupBatches addrs p hp i hip with ⟨hpi, _⟩
    rw [hi] at hpi
    injection hpi with hpa
    rw [← hpa]
    exact hbroken
  -- frame through the redirect round
  have hframe2 : (doRedirect (beh 1) (runBatches (beh 0)
      ⟨assignAddrs (computeSlots (sends.map fun s => mkCmd s.1 s.2)).1 addrs, false, -1,
        groupBatches addrs⟩)).cmds[i]? = some cA := by
    rw [doRedirect_cmds_frame (beh 1) _ i ?_]
    · exact hframe1
    · intro c hc
      rw [show (runBatches (beh 0)
          ⟨assignAddrs (computeSlots (sends.map fun s => mkCmd s.1 s.2)).1 addrs, false, -1,
            groupBatches addrs⟩).cmds = runBatchList (beh 0) (groupBatches addrs)
          (assignAddrs (computeSlots (sends.map fun s => mkCmd s.1 s.2)).1 addrs) from rfl]
        at hc
      rw [hframe1] at hc
      injection hc with hc2
      rw [← hc2]
      exact hriA
  have hpfc : pf.cmds[i]? = some cA := by
    rw [hpf]
    exact hframe2
  constructor
  · rw [hpfc]
    simp [hrA, heA]
  · have hfl : pf.flushed = true := by rw [hpf]
    have hrp : pf.recvPos = -1 := by
      rw [hpf]
      show (doRedirect _ _).recvPos = -1
      rw [doRedirect_recvPos, runBatches_recvPos]
    rw [receiveN_all pf hfl hrp, List.getElem?_map, hpfc]
    simp [hrA, heA]

/-- Witness for the amended C3 at the concrete counterexample inputs. -/
theorem claim_C3_amended_witness :
    pfC3W.cmds[0]?.map (fun c => (c.reply, c.reply_err)) = some (.null, none) ∧
    (receiveN pfC3W pfC3W.cmds.length)[0]? = some (.null, none) := by
  refine claim_C3_amended [("GET", [.str "a"])] (fun _ => .ok ["n1"]) (fun _ _ => behC3W)
    pfC3W ["n1"] 0 "n1" (by rfl) (by rfl) rfl ?_ (by simp)
  exact Or.inl (by simp [behC3W])

/-! ## Claim C4 -/

/-- C4 (code bug): evaluation of `GetAddrsBySlots` at the failing inputs.
With `readOnly` and a slot owned by a primary alone, the code runs
`rnd.Intn(len(sa)-1) = rnd.Intn(0)`, which panics — the claim (and spec
§4.4) say it falls back to the primary.  With two replicas it reads
`addrs[ix+1]` — the result slice built so far, here still empty — and
panics again instead of picking a replica from `owners[1..]`.  The
`readOnly = false` path and the single-replica path behave as claimed. -/
theorem claim_C4_readonly_code_bug :
    GetAddrsBySlots (fun j => if j = 0 then ["p1:1"] else []) [0] true (fun _ => 0)
      = .panic ∧
    GetAddrsBySlots (fun j => if j = 0 then ["p1:1", "r1:1", "r2:1"] else []) [0] true
      (fun _ => 0) = .panic ∧
    GetAddrsBySlots (fun j => if j = 0 then ["p1:1"] else []) [0] false (fun _ => 0)
      = .ok ["p1:1"] ∧
    GetAddrsBySlots (fun j => if j = 0 then ["p1:1", "r1:1"] else []) [0] true (fun _ => 0)
      = .ok ["r1:1"] :=
  ⟨rfl, rfl, rfl, rfl⟩

/-! ## Claim C5 -/

/-- C5 counterexample: `CmdSlot` of clusterpool.go returns 0 — not −1 — for
a command with no arguments, and computes the slot of `EVAL` from `args[0]`
(the script text), not from `args[2]` (the first declared key). -/
theorem claim_C5_counterexample :
    CmdSlot "GET" [] = 0 ∧ (0 : Int) ≠ (-1 : Int) ∧
    CmdSlot "EVAL" [.str "scr", .str "1", .str "k"] = (slot "scr" : Int) ∧
    (slot "scr" : Int) ≠ (slot "k" : Int) :=
  ⟨rfl, by decide, rfl, by decide⟩

/-- C5 amended: `CmdSlot` ignores the command name entirely (no
special-casing of the script-execution commands): it returns 0 when there
are no arguments or when the first argument is not a string, and the slot
of `args[0]` when it is a string. -/
theorem claim_C5_amended :
    (∀ name name2 args, CmdSlot name args = CmdSlot name2 args) ∧
    (∀ name, CmdSlot name [] = 0) ∧
    (∀ name k rest, CmdSlot name (RVal.str k :: rest) = (slot k : Int)) ∧
    (∀ name v rest, (∀ k, v ≠ RVal.str k) → CmdSlot name (v :: rest) = 0) := by
  refine ⟨?_, fun _ => rfl, fun _ _ _ => rfl, ?_⟩
  · intro name name2 args
    cases args with
    | nil => rfl
    | cons v rest => cases v <;> rfl
  · intro name v rest hv
    cases v with
    | str s => exact absurd rfl (hv s)
    | null => rfl
    | int n => rfl
    | arr l => rfl

/-- Witness for the amended C5 at concrete inputs. -/
theorem claim_C5_amended_witness :
    CmdSlot "EVAL" [.int 5] = 0 ∧ CmdSlot "GET" [.str "a"] = CmdSlot "EVAL" [.str "a"] :=
  ⟨claim_C5_amended.2.2.2 "EVAL" (.int 5) [] (fun k h => RVal.noConfusion h),
   claim_C5_amended.1 "GET" "EVAL" [.str "a"]⟩

/-! ## Claim C6 -/

/-- C6: `onRedir` mutates the slot table only for MOVED.  For ASK it leaves
the table unchanged and returns false; for a MOVED whose address equals the
slot's current primary it leaves the table unchanged and returns false; for
a MOVED with a different or absent primary it replaces exactly that slot's
owner list with `[info.addr]`, leaves every other slot unchanged, and
returns true (the source spawns the background reload exactly when the
returned flag is true). -/
theorem claim_C6_onRedir (m : Nat → List String) (ri : RedirInfo) :
    (ri.kind = "ASK" → onRedir m (some ri) = some (m, false)) ∧
    (ri.kind = "MOVED" → 0 ≤ ri.slot → ri.slot < (TotalSlots : Int) →
      (((m ri.slot.toNat).head? = some ri.addr → onRedir m (some ri) = some (m, false)) ∧
       ((m ri.slot.toNat).head? ≠ some ri.addr →
         ∃ m2, onRedir m (some ri) = some (m2, true) ∧
           m2 ri.slot.toNat = [ri.addr] ∧
           ∀ j, j ≠ ri.slot.toNat → m2 j = m j))) := by
  constructor
  · intro hask
    unfold onRedir
    dsimp only
    rw [if_neg (by rw [hask]; decide)]
  · intro hk h0 h1
    unfold onRedir
    dsimp only
    rw [if_pos hk, if_pos h1, if_neg (by omega)]
    constructor
    · intro hhead
      cases hcur : m ri.slot.toNat with
      | nil => rw [hcur] at hhead; simp at hhead
      | cons a0 tl =>
        rw [hcur] at hhead
        simp only [List.head?_cons, Option.some.injEq] at hhead
        dsimp only
        rw [if_neg (by simp [hhead])]
    · intro hhead
      cases hcur : m ri.slot.toNat with
      | nil =>
        exact ⟨_, rfl, by simp, fun j hj => by simp [hj]⟩
      | cons a0 tl =>
        rw [hcur] at hhead
        simp only [List.head?_cons, Option.some.injEq] at hhead
        dsimp only
        rw [if_pos (by simpa using hhead)]
        exact ⟨_, rfl, by simp, fun j hj => by simp [hj]⟩

/-- Witness for C6 at a concrete MOVED redirection that replaces slot 5. -/
theorem claim_C6_onRedir_witness :
    ∃ m2, onRedir (fun _ => ["x:1"]) (some ⟨"MOVED", 5, "y:1", "MOVED 5 y:1"⟩)
        = some (m2, true) ∧
      m2 5 = ["y:1"] ∧ ∀ j, j ≠ 5 → m2 j = ["x:1"] := by
  have h := (claim_C6_onRedir (fun _ => ["x:1"]) ⟨"MOVED", 5, "y:1", "MOVED 5 y:1"⟩).2
    rfl (by decide) (by decide)
  have h2 := h.2 (by simp)
  simpa using h2

/-! ## Claim C7 -/

theorem reloadLoop_success (net : String → Option RVal) (st : PoolState) :
    ∀ (pre : List String) (a : String) (post : List String) (rep : RVal) (st2 : PoolState),
    (∀ b ∈ pre, candFails net st b) →
    net a = some rep → updateSlotMap st rep = .ok st2 →
    reloadLoop net st (pre ++ a :: post) = .ok ({ st2 with reloading := false }, none)
  | [], a, post, rep, st2, hpre, hnet, hupd => by
    rw [List.nil_append]
    unfold reloadLoop
    rw [hnet]
    dsimp only
    rw [hupd]
  | b :: pre, a, post, rep, st2, hpre, hnet, hupd => by
    rw [List.cons_append]
    unfold reloadLoop
    cases hb : net b with
    | none =>
      exact reloadLoop_success net st pre a post rep st2
        (fun x hx => hpre x (List.mem_cons_of_mem _ hx)) hnet hupd
    | some repb =>
      dsimp only
      rcases hpre b (List.mem_cons_self _ _) repb hb with ⟨e, he⟩
      rw [he]
      exact reloadLoop_success net st pre a post rep st2
        (fun x hx => hpre x (List.mem_cons_of_mem _ hx)) hnet hupd

theorem reloadLoop_allFail (net : String → Option RVal) (st : PoolState) :
    ∀ (nodes : List String), (∀ b ∈ nodes, candFails net st b) →
    reloadLoop net st nodes
      = .ok ({ st with reloading := false }, some (.goErr "all nodes failed"))
  | [], _ => rfl
  | b :: rest, h => by
    unfold reloadLoop
    cases hb : net b with
    | none =>
      exact reloadLoop_allFail net st rest (fun x hx => h x (List.mem_cons_of_mem _ hx))
    | some repb =>
      dsimp only
      rcases h b (List.mem_cons_self _ _) repb hb with ⟨e, he⟩
      rw [he]
      exact reloadLoop_allFail net st rest (fun x hx => h x (List.mem_cons_of_mem _ hx))

/-- C7: `reloadSlotMaping` is single-flight on the `reloading` flag — when
the flag is already set it returns success immediately with the whole state
(slot table included) unchanged; otherwise it sets the flag and walks the
candidates in order: "empty node" when there is no candidate, installation
of the first successfully parsed CLUSTER SLOTS reply with success, and
"all nodes failed" when every candidate fails; the flight that set the flag
clears it on every one of those exits. -/
theorem claim_C7_reload (st : PoolState) (net : String → Option RVal) :
    (st.reloading = true → reloadSlotMaping net st = .ok (st, none)) ∧
    (st.reloading = false →
      (getNodes { st with reloading := true } true = [] →
        reloadSlotMaping net st
          = .ok ({ st with reloading := false }, some (.goErr "empty node"))) ∧
      (∀ pre a post rep st2,
        getNodes { st with reloading := true } true = pre ++ a :: post →
        (∀ b ∈ pre, candFails net { st with reloading := true } b) →
        net a = some rep →
        updateSlotMap { st with reloading := true } rep = .ok st2 →
        reloadSlotMaping net st = .ok ({ st2 with reloading := false }, none)) ∧
      ((∀ b ∈ getNodes { st with reloading := true } true,
          candFails net { st with reloading := true } b) →
        getNodes { st with reloading := true } true ≠ [] →
        reloadSlotMaping net st
          = .ok ({ st with reloading := false }, some (.goErr "all nodes failed")))) := by
  constructor
  · intro hr
    unfold reloadSlotMaping
    rw [if_pos hr]
  · intro hr
    refine ⟨?_, ?_, ?_⟩
    · intro hn
      unfold reloadSlotMaping
      rw [if_neg (by rw [hr]; exact Bool.false_ne_true)]
      dsimp only
      rw [hn, if_pos rfl]
    · intro pre a post rep st2 hnodes hpre hnet hupd
      unfold reloadSlotMaping
      rw [if_neg (by rw [hr]; exact Bool.false_ne_true)]
      dsimp only
      rw [hnodes, if_neg (by simp)]
      exact reloadLoop_success net _ pre a post rep st2 hpre hnet hupd
    · intro hall hne
      unfold reloadSlotMaping
      rw [if_neg (by rw [hr]; exact Bool.false_ne_true)]
      dsimp only
      rw [if_neg hne]
      exact reloadLoop_allFail net _ _ hall

/-- Witness for C7: one seed node answering an empty (but well-formed)
CLUSTER SLOTS reply; the reload succeeds and clears the flag. -/
theorem claim_C7_reload_witness :
    reloadSlotMaping (fun _ => some (.arr [])) ⟨["n"], fun _ => [], [], false⟩
      = .ok (⟨["n"], fun _ => [], [], false⟩, none) := by
  exact ((claim_C7_reload ⟨["n"], fun _ => [], [], false⟩ (fun _ => some (.arr []))).2
      rfl).2.1 [] "n" [] (.arr []) ⟨["n"], fun _ => [], [], true⟩ rfl
    (fun b hb => absurd hb (List.not_mem_nil b)) rfl rfl

/-! ## Claim C8 -/

/-- C8 counterexample: Go `strconv.Atoi` accepts a leading minus sign, so a
redirection error with a negative slot token parses successfully into a
`RedirInfo` — the claim says any negative slot token yields none. -/
theorem claim_C8_counterexample :
    ParseRedirInfo (.redisErr "MOVED -3 127.0.0.1:6379")
      = some ⟨"MOVED", -3, "127.0.0.1:6379", "MOVED -3 127.0.0.1:6379"⟩ ∧
    ParseRedirInfo (.redisErr "MOVED -3 127.0.0.1:6379") ≠ none := by
  refine ⟨by decide, ?_⟩
  intro h
  rw [show ParseRedirInfo (.redisErr "MOVED -3 127.0.0.1:6379")
      = some ⟨"MOVED", -3, "127.0.0.1:6379", "MOVED -3 127.0.0.1:6379"⟩ from by decide] at h
  exact Option.noConfusion h

/-- C8 amended: `ParseRedirInfo` returns a RedirInfo exactly when its input
is a server error (`redis.Error`) whose text splits on whitespace into
exactly 3 tokens with token 0 equal to MOVED or ASK and token 1 parsable as
a (possibly negative: `strconv.Atoi` accepts a sign) 64-bit integer; every
other input — wrong token count, other keyword, non-numeric slot token, or
a value that is not a server error — yields none. -/
theorem claim_C8_amended (e : GoErr) (ri : RedirInfo) :
    ParseRedirInfo e = some ri ↔
      ∃ s t0 t1 t2 n, e = GoErr.redisErr s ∧ goFields s = [t0, t1, t2] ∧
        (t0 = "MOVED" ∨ t0 = "ASK") ∧ goAtoi t1 = some n ∧
        ri = ⟨t0, n, t2, s⟩ := by
  constructor
  · intro h
    cases e with
    | goErr s =>
      exact Option.noConfusion (show (none : Option RedirInfo) = some ri from h)
    | redisErr s =>
      unfold ParseRedirInfo at h
      dsimp only at h
      split at h
      next p0 p1 p2 hf =>
        split at h
        next ht0 =>
          split at h
          next n ha =>
            injection h with h2
            exact ⟨s, p0, p1, p2, n, rfl, hf, ht0, ha, h2.symm⟩
          next ha => exact Option.noConfusion h
        next ht0 => exact Option.noConfusion h
      next x hx => exact Option.noConfusion h
  · rintro ⟨s, t0, t1, t2, n, rfl, hf, ht0, ha, rfl⟩
    unfold ParseRedirInfo
    dsimp only
    rw [hf]
    dsimp only
    rw [if_pos ht0, ha]

/-- Witness for the amended C8: a concrete ASK error round-trips through
the characterisation. -/
theorem claim_C8_amended_witness :
    ParseRedirInfo (.redisErr "ASK 7 n:1") = some ⟨"ASK", 7, "n:1", "ASK 7 n:1"⟩ := by
  exact (claim_C8_amended (.redisErr "ASK 7 n:1") ⟨"ASK", 7, "n:1", "ASK 7 n:1"⟩).mpr
    ⟨"ASK 7 n:1", "ASK", "7", "n:1", 7, rfl, by decide, Or.inr rfl, by decide, rfl⟩

/-! ## Claim C10 -/

/-- C10: slot-table reads are guarded only against the upper bound.  For
any negative slot, `GetAddrsBySlots` and `getRedisConnBySlot` do not return
the "invalid slot" error but panic on the array access; `ChnSlot` returns −1
(with no error) whenever no supplied channel is a non-empty string; and
`SSubscribe` hands that −1 straight to `getRedisConnBySlot`, which panics —
the 16384-entry array index is in bounds only under the unchecked
precondition `slot ≥ 0`. -/
theorem claim_C10_negative_slot (m m2 : Nat → List String) (sup : Nat → Nat)
    (ro : Bool) (sl : Int) (hneg : sl < 0) :
    GetAddrsBySlots m [sl] ro sup = .panic ∧
    getRedisConnBySlot m m2 sl = .panic ∧
    (∀ channels : List RVal, (∀ c ∈ channels, c = RVal.str "") →
      ChnSlot channels = .ok (-1)) ∧
    sSubscribeAddr m m2 [RVal.str ""] = .panic := by
  have hloop : ∀ (cs : List RVal), (∀ c ∈ cs, c = RVal.str "") →
      ∀ acc, chnSlotLoop cs acc = .ok acc := by
    intro cs
    induction cs with
    | nil => intro _ acc; rfl
    | cons c rest ih =>
      intro h acc
      have hc : c = RVal.str "" := h c (List.mem_cons_self _ _)
      subst hc
      unfold chnSlotLoop
      dsimp only [redisString]
      rw [if_neg (by decide)]
      exact ih (fun x hx => h x (List.mem_cons_of_mem _ hx)) acc
  refine ⟨?_, ?_, fun channels h => hloop channels h (-1), ?_⟩
  · unfold GetAddrsBySlots getAddrsLoop
    rw [if_neg (by omega), if_pos hneg]
  · unfold getRedisConnBySlot
    rw [if_neg (by omega), if_pos hneg]
  · show sSubscribeAddr m m2 [RVal.str ""] = .panic
    unfold sSubscribeAddr
    rw [show ChnSlot [RVal.str ""] = .ok (-1) from rfl]
    dsimp only
    unfold getRedisConnBySlot
    rw [if_neg (by decide), if_pos (by decide)]

/-- Witness for C10 at slot −1 with empty tables. -/
theorem claim_C10_negative_slot_witness :
    GetAddrsBySlots (fun _ => []) [-1] false (fun _ => 0) = .panic ∧
    getRedisConnBySlot (fun _ => []) (fun _ => []) (-1) = .panic ∧
    ChnSlot [RVal.str ""] = .ok (-1) ∧
    sSubscribeAddr (fun _ => []) (fun _ => []) [RVal.str ""] = .panic := by
  have h := claim_C10_negative_slot (fun _ => []) (fun _ => []) (fun _ => 0) false (-1)
    (by decide)
  exact ⟨h.1, h.2.1, h.2.2.1 [RVal.str ""] (fun c hc => by simpa using hc), h.2.2.2⟩

/-! ## Claim C9 -/

theorem insertKey_map_fst :
    ∀ (m : List (Int × List String)) (sl : Int) (k : String),
    (insertKey m sl k).map Prod.fst =
      if sl ∈ m.map Prod.fst then m.map Prod.fst else m.map Prod.fst ++ [sl]
  | [], sl, k => by simp [insertKey]
  | (s, ks) :: rest, sl, k => by
    unfold insertKey
    by_cases hs : s = sl
    · subst hs
      rw [if_pos rfl]
      simp
    · rw [if_neg hs, List.map_cons, List.map_cons, insertKey_map_fst rest sl k]
      by_cases hin : sl ∈ rest.map Prod.fst
      · rw [if_pos hin, if_pos (List.mem_cons_of_mem _ hin)]
      · rw [if_neg hin, if_neg ?_]
        · simp
        · intro hc
          rcases List.mem_cons.mp hc with h | h
          · exact hs h.symm
          · exact hin h

theorem insertKey_mem :
    ∀ (m : List (Int × List String)), (m.map Prod.fst).Nodup →
    ∀ (sl : Int) (k : String) (q : Int × List String), q ∈ insertKey m sl k →
    (q ∈ m ∧ q.1 ≠ sl) ∨
    (∃ ks0, q.1 = sl ∧ q.2 = ks0 ++ [k] ∧
      ((sl, ks0) ∈ m ∨ (ks0 = [] ∧ sl ∉ m.map Prod.fst)))
  | [], _, sl, k, q, hq => by
    simp only [insertKey, List.mem_singleton] at hq
    subst hq
    exact Or.inr ⟨[], rfl, rfl, Or.inr ⟨rfl, by simp⟩⟩
  | (s, ks) :: rest, hnd, sl, k, q, hq => by
    simp only [List.map_cons, List.nodup_cons] at hnd
    unfold insertKey at hq
    by_cases hs : s = sl
    · subst hs
      rw [if_pos rfl] at hq
      rcases List.mem_cons.mp hq with h1 | h1
      · subst h1
        exact Or.inr ⟨ks, rfl, rfl, Or.inl (List.mem_cons_self _ _)⟩
      · refine Or.inl ⟨List.mem_cons_of_mem _ h1, ?_⟩
        intro hq1
        exact hnd.1 (hq1 ▸ List.mem_map_of_mem Prod.fst h1)
    · rw [if_neg hs] at hq
      rcases List.mem_cons.mp hq with h1 | h1
      · subst h1
        exact Or.inl ⟨List.mem_cons_self _ _, hs⟩
      · rcases insertKey_mem rest hnd.2 sl k q h1 with ⟨h2, h3⟩ | ⟨ks0, h2, h3, h4⟩
        · exact Or.inl ⟨List.mem_cons_of_mem _ h2, h3⟩
        · refine Or.inr ⟨ks0, h2, h3, ?_⟩
          rcases h4 with h5 | ⟨h5, h6⟩
          · exact Or.inl (List.mem_cons_of_mem _ h5)
          · refine Or.inr ⟨h5, ?_⟩
            intro hc
            rcases List.mem_cons.mp hc with h7 | h7
            · exact hs h7.symm
            · exact h6 h7

theorem insertKey_goodMap (done : List String) (k : String)
    (m : List (Int × List String)) (hm : goodMap done m) :
    goodMap (done ++ [k]) (insertKey m (Slot k) k) := by
  obtain ⟨hnd, hent, hcov⟩ := hm
  refine ⟨?_, ?_, ?_⟩
  · rw [insertKey_map_fst]
    by_cases hin : Slot k ∈ m.map Prod.fst
    · rw [if_pos hin]
      exact hnd
    · rw [if_neg hin, List.nodup_append]
      refine ⟨hnd, List.nodup_singleton _, ?_⟩
      intro a ha hb
      simp only [List.mem_singleton] at hb
      exact hin (hb ▸ ha)
  · intro q hq
    rcases insertKey_mem m hnd (Slot k) k q hq with ⟨hqm, hq1⟩ | ⟨ks0, hq1, hq2, hks0⟩
    · have h2 := hent q hqm
      refine ⟨?_, h2.2⟩
      rw [List.filter_append, h2.1]
      have h3 : [k].filter (fun k2 => Slot k2 = q.1) = [] := by
        rw [List.filter_eq_nil_iff]
        intro a ha
        simp only [List.mem_singleton] at ha
        subst ha
        simp only [decide_eq_true_eq]
        exact fun h => hq1 h.symm
      rw [h3, List.append_nil]
    · constructor
      · rw [hq2, List.filter_append, hq1]
        have hk1 : [k].filter (fun k2 => Slot k2 = Slot k) = [k] := by simp
        rw [hk1]
        congr 1
        rcases hks0 with h | ⟨h0, hnin⟩
        · exact (hent (Slot k, ks0) h).1
        · subst h0
          symm
          rw [List.filter_eq_nil_iff]
          intro a ha hsl
          simp only [decide_eq_true_eq] at hsl
          rcases hcov a ha with ⟨p, hpm, hp1⟩
          apply hnin
          rw [← hsl, ← hp1]
          exact List.mem_map_of_mem Prod.fst hpm
      · rw [hq2]
        simp
  · intro k2 hk2
    rcases List.mem_append.mp hk2 with h1 | h1
    · rcases hcov k2 h1 with ⟨p, hpm, hp1⟩
      have h2 : p.1 ∈ (insertKey m (Slot k) k).map Prod.fst := by
        rw [insertKey_map_fst]
        by_cases hin : Slot k ∈ m.map Prod.fst
        · rw [if_pos hin]
          exact List.mem_map_of_mem _ hpm
        · rw [if_neg hin]
          exact List.mem_append_left _ (List.mem_map_of_mem _ hpm)
      rcases List.mem_map.mp h2 with ⟨q, hqm, hq1⟩
      exact ⟨q, hqm, by rw [hq1, hp1]⟩
    · simp only [List.mem_singleton] at h1
      subst h1
      have h2 : Slot k2 ∈ (insertKey m (Slot k2) k2).map Prod.fst := by
        rw [insertKey_map_fst]
        by_cases hin : Slot k2 ∈ m.map Prod.fst
        · rw [if_pos hin]
          exact hin
        · rw [if_neg hin]
          exact List.mem_append_right _ (by simp)
      rcases List.mem_map.mp h2 with ⟨q, hqm, hq1⟩
      exact ⟨q, hqm, hq1⟩

theorem cmdMapAux_goodMap :
    ∀ (keys done : List String) (m : List (Int × List String)),
    goodMap done m → goodMap (done ++ keys) (cmdMapAux keys m)
  | [], done, m, h => by simpa using h
  | k :: rest, done, m, h => by
    unfold cmdMapAux
    have h2 := insertKey_goodMap done k m h
    have h3 := cmdMapAux_goodMap rest (done ++ [k]) _ h2
    simpa [List.append_assoc] using h3

theorem cmdMapOf_goodMap (keys : List String) : goodMap keys (cmdMapOf keys) := by
  have h := cmdMapAux_goodMap keys [] [] ⟨by simp, by simp, by simp⟩
  simpa using h

theorem mapGet_mapPut :
    ∀ (m : List (String × RVal)) (k : String) (v : RVal) (key : String),
    mapGet (mapPut m k v) key = if key = k then v else mapGet m key
  | [], k, v, key => by
    by_cases h : key = k
    · subst h
      simp [mapPut, mapGet]
    · unfold mapPut mapGet
      rw [List.find?_cons_of_neg _ (by simpa using fun h2 => h h2.symm), if_neg h]
  | (k2, v2) :: rest, k, v, key => by
    unfold mapPut
    by_cases h2 : k2 = k
    · rw [if_pos h2]
      subst h2
      by_cases h : key = k2
      · subst h
        simp [mapGet]
      · unfold mapGet
        rw [List.find?_cons_of_neg _ (by simpa using fun h2 => h h2.symm),
          List.find?_cons_of_neg _ (by simpa using fun h2 => h h2.symm), if_neg h]
    · rw [if_neg h2]
      by_cases h : key = k2
      · subst h
        unfold mapGet
        rw [List.find?_cons_of_pos _ (by simp), List.find?_cons_of_pos _ (by simp),
          if_neg h2]
      · unfold mapGet
        rw [List.find?_cons_of_neg _ (by simpa using fun h3 => h h3.symm),
          List.find?_cons_of_neg _ (by simpa using fun h3 => h h3.symm)]
        have ih := mapGet_mapPut rest k v key
        unfold mapGet at ih
        exact ih

theorem foldl_mapPut_notMem :
    ∀ (entries : List (String × RVal)) (acc : List (String × RVal)) (key : String),
    key ∉ entries.map Prod.fst →
    mapGet (entries.foldl (fun m kv => mapPut m kv.1 kv.2) acc) key = mapGet acc key
  | [], acc, key, _ => rfl
  | (k0, v0) :: rest, acc, key, h => by
    rw [List.foldl_cons]
    simp only [List.map_cons, List.mem_cons, not_or] at h
    rw [foldl_mapPut_notMem rest _ key h.2, mapGet_mapPut, if_neg h.1]

theorem foldl_mapPut_mem :
    ∀ (entries : List (String × RVal)) (acc : List (String × RVal)) (key : String) (v : RVal),
    (entries.map Prod.fst).Nodup → (key, v) ∈ entries →
    mapGet (entries.foldl (fun m kv => mapPut m kv.1 kv.2) acc) key = v
  | [], _, _, _, _, h => absurd h (List.not_mem_nil _)
  | (k0, v0) :: rest, acc, key, v, hnd, hmem => by
    rw [List.foldl_cons]
    simp only [List.map_cons, List.nodup_cons] at hnd
    rcases List.mem_cons.mp hmem with h1 | h1
    · injection h1 with h1a h1b
      subst h1a
      subst h1b
      rw [foldl_mapPut_notMem rest _ key hnd.1, mapGet_mapPut, if_pos rfl]
    · have hk : key ≠ k0 := by
        intro h
        subst h
        exact hnd.1 (List.mem_map_of_mem Prod.fst h1)
      exact foldl_mapPut_mem rest _ key v hnd.2 h1

/-- Full description of the receive loop of `multiget` when no Receive
errors occur: the final `resMap` holds, for each key of each group, the
group's distributed value, leaving every other key as in `acc`. -/
theorem mgetLoop_spec (slotReply : Int → RVal × Option GoErr)
    (hok : ∀ sl, (slotReply sl).2 = none) :
    ∀ (m : List (Int × List String)) (acc : List (String × RVal)),
    (∀ p ∈ m, p.2.Nodup) →
    m.Pairwise (fun p q => ∀ k, k ∈ p.2 → k ∉ q.2) →
    ∃ r, mgetLoop slotReply m acc = .ok r ∧
      (∀ key, (∀ p ∈ m, key ∉ p.2) → mapGet r key = mapGet acc key) ∧
      (∀ sl ks t key, (sl, ks) ∈ m → ks[t]? = some key →
        mapGet r key = groupVal slotReply sl ks t)
  | [], acc, _, _ =>
    ⟨acc, rfl, fun _ _ => rfl, fun sl ks t key h _ => absurd h (List.not_mem_nil _)⟩
  | (sl, ks) :: rest, acc, hnd, hdisj => by
    have hdj := List.pairwise_cons.mp hdisj
    unfold mgetLoop
    dsimp only
    rw [hok sl]
    dsimp only
    set entries :=
      (match (slotReply sl).1 with
        | RVal.arr l =>
          if l.length = ks.length then ks.zip l else ks.map fun k => (k, RVal.null)
        | _ => ks.map fun k => (k, RVal.null)) with hE
    have hnullmap : (ks.map fun k => (k, RVal.null)).map Prod.fst = ks := by
      rw [List.map_map]
      have h : (Prod.fst ∘ fun k : String => (k, RVal.null)) = id := funext fun k => rfl
      rw [h, List.map_id]
    have hEfst : entries.map Prod.fst = ks := by
      rw [hE]
      cases hrep : (slotReply sl).1 with
      | arr l =>
        by_cases hl : l.length = ks.length
        · simp only [hl, if_true]
          exact List.map_fst_zip ks l (by omega)
        · simp only [hl, if_false]
          exact hnullmap
      | null => exact hnullmap
      | str s => exact hnullmap
      | int n => exact hnullmap
    have hEval : ∀ t key, ks[t]? = some key →
        (key, groupVal slotReply sl ks t) ∈ entries := by
      intro t key hkt
      have htlt : t < ks.length := by
        rcases List.getElem?_eq_some.mp hkt with ⟨h, _⟩
        exact h
      rw [hE]
      unfold groupVal
      cases hrep : (slotReply sl).1 with
      | arr l =>
        by_cases hl : l.length = ks.length
        · simp only [hl, if_true]
          have htl : t < l.length := by omega
          have hzip : (ks.zip l)[t]? = some (key, l.get ⟨t, htl⟩) := by
            show (List.zipWith Prod.mk ks l)[t]? = _
            rw [List.getElem?_zipWith, hkt, List.getElem?_eq_getElem htl]
            rfl
          have hval : l[t]?.getD .null = l.get ⟨t, htl⟩ := by
            rw [List.getElem?_eq_getElem htl]
            rfl
          rw [hval]
          exact List.getElem?_mem hzip
        · simp only [hl, if_false]
          exact List.mem_map.mpr ⟨key, List.getElem?_mem hkt, rfl⟩
      | null => exact List.mem_map.mpr ⟨key, List.getElem?_mem hkt, rfl⟩
      | str s => exact List.mem_map.mpr ⟨key, List.getElem?_mem hkt, rfl⟩
      | int n => exact List.mem_map.mpr ⟨key, List.getElem?_mem hkt, rfl⟩
    obtain ⟨r, hr, hfr, hgr⟩ := mgetLoop_spec slotReply hok rest
      (entries.foldl (fun m2 kv => mapPut m2 kv.1 kv.2) acc)
      (fun p hp => hnd p (List.mem_cons_of_mem _ hp)) hdj.2
    refine ⟨r, hr, ?_, ?_⟩
    · intro key hkey
      rw [hfr key (fun p hp => hkey p (List.mem_cons_of_mem _ hp))]
      refine foldl_mapPut_notMem entries _ key ?_
      rw [hEfst]
      exact hkey (sl, ks) (List.mem_cons_self _ _)
    · intro sl2 ks2 t key hmem hkt
      rcases List.mem_cons.mp hmem with h1 | h1
      · have h1a : sl2 = sl := congrArg Prod.fst h1
        have h1b : ks2 = ks := congrArg Prod.snd h1
        rw [h1b] at hkt
        rw [h1a, h1b]
        have hkmem : key ∈ ks := List.getElem?_mem hkt
        rw [hfr key (fun p hp => hdj.1 p hp key hkmem)]
        exact foldl_mapPut_mem entries _ key _
          (by rw [hEfst]; exact hnd (sl, ks) (List.mem_cons_self _ _)) (hEval t key hkt)
      · exact hgr sl2 ks2 t key h1 hkt

/-- C9: `multiget` on keys k₁…kₙ groups the keys by slot, issues one MGET
per slot through the pipeliner (`slotReply` is the per-slot reply the
pipeliner's Receive hands back, no receive errors), and returns an array of
length n in which position i holds the element of kᵢ's slot-reply array at
kᵢ's position within that slot's group; if a slot's reply is not an array
whose length equals that slot's key count, every position of that group
holds null.  Stated for pairwise-distinct keys (duplicate keys collapse in
the string-keyed `resMap`). -/
theorem claim_C9_multiget (args : List RVal) (slotReply : Int → RVal × Option GoErr)
    (hnd : (args.map sprintfS).Nodup)
    (hne : args ≠ [])
    (hok : ∀ sl, (slotReply sl).2 = none) :
    ∃ res : List RVal, multiget slotReply none args = (.arr res, none) ∧
      res.length = args.length ∧
      ∀ (i : Nat) (key : String), (args.map sprintfS)[i]? = some key →
        res[i]? = some (groupVal slotReply (Slot key)
          ((args.map sprintfS).filter (fun k2 => Slot k2 = Slot key))
          (((args.map sprintfS).filter (fun k2 => Slot k2 = Slot key)).indexOf key)) := by
  obtain ⟨hndk, hent, hcov⟩ := cmdMapOf_goodMap (args.map sprintfS)
  have hgnd : ∀ p ∈ cmdMapOf (args.map sprintfS), p.2.Nodup := by
    intro p hp
    rw [(hent p hp).1]
    exact hnd.filter _
  have hdisj : (cmdMapOf (args.map sprintfS)).Pairwise
      (fun p q => ∀ k, k ∈ p.2 → k ∉ q.2) := by
    have hp1 : (cmdMapOf (args.map sprintfS)).Pairwise (fun p q => p.1 ≠ q.1) :=
      List.pairwise_map.mp hndk
    refine hp1.imp_of_mem ?_
    intro p q hpm hqm hne2 k hkp hkq
    rw [(hent p hpm).1] at hkp
    rw [(hent q hqm).1] at hkq
    have h1 := (List.mem_filter.mp hkp).2
    have h2 := (List.mem_filter.mp hkq).2
    simp only [decide_eq_true_eq] at h1 h2
    exact hne2 (h1 ▸ h2)
  obtain ⟨r, hr, hfr, hgr⟩ :=
    mgetLoop_spec slotReply hok (cmdMapOf (args.map sprintfS)) [] hgnd hdisj
  refine ⟨(args.map sprintfS).map (mapGet r), ?_, by simp, ?_⟩
  · unfold multiget
    rw [if_neg (fun h => hne (List.length_eq_zero.mp h))]
    dsimp only
    rw [hr]
  · intro i key hkey
    have hmemk : key ∈ args.map sprintfS := List.getElem?_mem hkey
    rcases hcov key hmemk with ⟨p, hpm, hp1⟩
    have hent2 := (hent p hpm).1
    have hkgrp : key ∈ p.2 := by
      rw [hent2]
      exact List.mem_filter.mpr ⟨hmemk, by simp [hp1]⟩
    have hidx : p.2[p.2.indexOf key]? = some key := by
      rw [List.getElem?_eq_getElem (List.indexOf_lt_length.mpr hkgrp)]
      rw [List.getElem_indexOf]
    have hval := hgr p.1 p.2 (p.2.indexOf key) key (by
      rw [show (p.1, p.2) = p from rfl]
      exact hpm) hidx
    rw [List.getElem?_map, hkey, Option.map_some', hval]
    congr 2 <;> rw [← hp1, ← hent2]

/-- Witness for C9: two keys sharing a hash tag (one slot, one MGET), reply
array [1, 2] distributed back in order. -/
theorem claim_C9_multiget_witness :
    ∃ res : List RVal, multiget (fun _ => (.arr [.int 1, .int 2], none)) none
        [.str "{t}x", .str "{t}y"] = (.arr res, none) ∧
      res.length = 2 ∧
      ∀ (i : Nat) (key : String),
        ([RVal.str "{t}x", RVal.str "{t}y"].map sprintfS)[i]? = some key →
        res[i]? = some (groupVal (fun _ => (.arr [.int 1, .int 2], none)) (Slot key)
          (([RVal.str "{t}x", RVal.str "{t}y"].map sprintfS).filter
            (fun k2 => Slot k2 = Slot key))
          ((([RVal.str "{t}x", RVal.str "{t}y"].map sprintfS).filter
            (fun k2 => Slot k2 = Slot key)).indexOf key)) := by
  exact claim_C9_multiget [.str "{t}x", .str "{t}y"] (fun _ => (.arr [.int 1, .int 2], none))
    (by decide) (by simp) (fun _ => rfl)

example : crc16 (strBytes "123456789") = 0x31C3 := by decide
example : slot "a" = 15495 := by decide
example : slot "a{x}b" = slot "x" := by decide
example : goFields "MOVED 3999 127.0.0.1:6381" = ["MOVED", "3999", "127.0.0.1:6381"] := by decide
example : goAtoi "-12" = some (-12) := by decide
example : goAtoi "1x" = none := by decide

end Redicluster
